import Mathlib

/-!
Shallow embedding of the draftjs-filters normalization pipeline
(`src/lib/normalize.js`) and the entity helpers (`src/lib/filters/entities.js`).

The Draft.js data model is embedded as plain Lean structures:
* a `ContentState` is an ordered list of blocks (the `blockMap`, whose keys are
  the blocks' `key` fields) together with an entity registry (an association
  list from entity key to entity);
* a `Block` carries `key`, `type`, `depth`, `text` and the per-character
  metadata list (`characterList` in Draft.js);
* a `CharMeta` is a set of style tags (as a list) plus an optional entity key;
* an `Entity` is a type tag plus a data object (an association list from
  attribute name to value).

`Immutable.OrderedMap.merge` on a block map whose update set was obtained by
`filter`/`map` (both key-preserving) updates existing keys in place; it is
embedded as `mergeBlocks`, a map over the original list that replaces each
block by the entry with the same key in the update list, when there is one.

Passes that call `content.getEntity(key)` can throw in JavaScript when the key
does not resolve; they are embedded as `Option`-valued functions, with `none`
for the uncaught exception.
-/

def UNSTYLED : String := "unstyled"

def ATOMIC : String := "atomic"

def IMAGE : String := "IMAGE"

def HORIZONTAL_RULE : String := "HORIZONTAL_RULE"

/-- Per-character metadata: style set plus optional entity key
(`CharacterMetadata` in Draft.js). -/
structure CharMeta where
  styles : List String
  entity : Option String
deriving DecidableEq

/-- A content block (`ContentBlock` in Draft.js). -/
structure Block where
  key : String
  type : String
  depth : Nat
  text : String
  chars : List CharMeta
deriving DecidableEq

/-- An entity: a type tag and a data object. -/
structure Entity where
  etype : String
  data : List (String × String)
deriving DecidableEq

/-- One entry of the `enabledEntityTypes` configuration array, reduced to the
fields `filterEntityAttributes` reads. -/
structure EntityConfig where
  type : String
  attributes : List String
deriving DecidableEq

/-- A content state: the ordered block map plus the entity registry. -/
structure ContentState where
  blocks : List Block
  entityMap : List (String × Entity)
deriving DecidableEq

/-- A selection (`SelectionState` in Draft.js), reduced to the fields the
filters read. -/
structure SelectionState where
  anchorKey : String
  anchorOffset : Nat
  focusKey : String
  focusOffset : Nat
deriving DecidableEq

/-- `SelectionState.isCollapsed()`. -/
def isCollapsed (s : SelectionState) : Bool :=
  s.anchorKey == s.focusKey && s.anchorOffset == s.focusOffset

/-- `ContentState.getEntity(key)`, as a partial lookup (`none` where Draft.js
would throw). -/
def lookupEntity (content : ContentState) (k : String) : Option Entity :=
  (content.entityMap.find? (fun p => p.1 == k)).map (fun p => p.2)

/-- `ContentBlock.getEntityAt(offset)`: entity key of the character at
`offset`, `none` when out of range. -/
def getEntityAt (b : Block) (i : Nat) : Option String :=
  match b.chars.get? i with
  | some c => c.entity
  | none => none

/-- `ContentBlock.getInlineStyleAt(offset)`: styles of the character at
`offset`, empty when out of range. -/
def getInlineStyleAt (b : Block) (i : Nat) : List String :=
  match b.chars.get? i with
  | some c => c.styles
  | none => []

/-- `blockMap.merge(changed)` where `changed` holds key-preserving updates of
a subset of `orig`'s entries: each block is replaced by the entry in `changed`
carrying the same key, when present. -/
def mergeBlocks (orig changed : List Block) : List Block :=
  orig.map (fun b =>
    match changed.find? (fun c => c.key == b.key) with
    | some c => c
    | none => b)

/-- `List.mapM` specialised to `Option`, by structural recursion. -/
def mapMOpt (f : α → Option β) : List α → Option (List β)
  | [] => some []
  | x :: xs =>
    (f x).bind (fun y => (mapMOpt f xs).map (fun ys => y :: ys))

/-- `List.foldlM` specialised to `Option`, by structural recursion. -/
def foldlMOpt (f : γ → α → Option γ) : γ → List α → Option γ
  | c, [] => some c
  | c, x :: xs =>
    match f c x with
    | some c2 => foldlMOpt f c2 xs
    | none => none

/-! ## `preserveAtomicBlocks` (normalize.js) -/

/-- The filter predicate of `preserveAtomicBlocks`:
`entityKey && entityTypes.includes(content.getEntity(entityKey).getType())`.
`none` models the `getEntity` throw on an unresolvable key. -/
def preservePred (content : ContentState) (entityTypes : List String)
    (b : Block) : Option Bool :=
  match getEntityAt b 0 with
  | some k => (lookupEntity content k).map (fun e => entityTypes.contains e.etype)
  | none => some false

/-- `blockMap.filter(preservePred).map(block => block.set("type", ATOMIC))`. -/
def collectPreserved (content : ContentState) (entityTypes : List String) :
    List Block → Option (List Block)
  | [] => some []
  | b :: rest =>
    (preservePred content entityTypes b).bind (fun keep =>
      (collectPreserved content entityTypes rest).map (fun tail =>
        if keep then { b with type := ATOMIC } :: tail else tail))

/-- `preserveAtomicBlocks`: force to `atomic` every block whose first
character carries an entity of one of the given types. -/
def preserveAtomicBlocks (content : ContentState) (entityTypes : List String) :
    Option ContentState :=
  (collectPreserved content entityTypes content.blocks).map (fun preserved =>
    if preserved.isEmpty then content
    else { content with blocks := mergeBlocks content.blocks preserved })

/-! ## `resetBlockDepth`, `resetBlockType` (normalize.js) -/

/-- `resetBlockDepth`: clamp every block's depth to at most `maxListNesting`. -/
def resetBlockDepth (content : ContentState) (maxListNesting : Nat) :
    ContentState :=
  let changedBlocks :=
    (content.blocks.filter (fun b => decide (maxListNesting < b.depth))).map
      (fun b => { b with depth := maxListNesting })
  if changedBlocks.isEmpty then content
  else { content with blocks := mergeBlocks content.blocks changedBlocks }

/-- `resetBlockType`: reset to `unstyled` every block whose type is not
enabled. -/
def resetBlockType (content : ContentState) (enabledTypes : List String) :
    ContentState :=
  let changedBlocks :=
    (content.blocks.filter (fun b => !(enabledTypes.contains b.type))).map
      (fun b => { b with type := UNSTYLED })
  if changedBlocks.isEmpty then content
  else { content with blocks := mergeBlocks content.blocks changedBlocks }

/-! ## `filterInlineStyle` (normalize.js) -/

/-- One character of `filterInlineStyle`: remove every style that is not
enabled (the source folds `CharacterMetadata.removeStyle` over the
disallowed styles, which leaves exactly the enabled ones). -/
def filterInlineStyleChar (enabledTypes : List String) (c : CharMeta) :
    CharMeta :=
  { c with styles := c.styles.filter (fun t => enabledTypes.contains t) }

/-- `filterInlineStyle`. The source returns the original block object when no
style was removed (`altered` flag); in that case the rebuilt block is equal to
the original, so the embedding rebuilds unconditionally. -/
def filterInlineStyle (content : ContentState) (enabledTypes : List String) :
    ContentState :=
  { content with
    blocks := content.blocks.map (fun b =>
      { b with chars := b.chars.map (filterInlineStyleChar enabledTypes) }) }

/-! ## `resetAtomicBlocks` (normalize.js) -/

/-- The shape-normalization filter of `resetAtomicBlocks`: atomic blocks whose
text is not the single placeholder or whose first character is styled. -/
def atomicNormPred (b : Block) : Bool :=
  b.type == ATOMIC && (b.text != " " || (getInlineStyleAt b 0).length != 0)

/-- The shape-normalization map of `resetAtomicBlocks`: placeholder text, only
the first character kept, its styles stripped one by one. -/
def atomicNormalise (b : Block) : Block :=
  { b with
    text := " "
    chars := (b.chars.take 1).map (fun c => { c with styles := [] }) }

/-- The shape-normalization subset of `resetAtomicBlocks`
(`blockMap.filter(...).map(...)`). -/
def resetAtomicBlocksNormalised (blockMap : List Block) : List Block :=
  (blockMap.filter atomicNormPred).map atomicNormalise

/-- The `blocks` variable of `resetAtomicBlocks` after the shape-normalization
merge (`blocks = blockMap.merge(normalisedBlocks)` when non-empty). -/
def resetAtomicBlocksMid (blockMap : List Block) : List Block :=
  let normalisedBlocks := resetAtomicBlocksNormalised blockMap
  if normalisedBlocks.isEmpty then blockMap
  else mergeBlocks blockMap normalisedBlocks

/-- The demotion predicate of `resetAtomicBlocks`: `shouldReset` starts
`false` and is set only when the first character carries an entity key, to
whether that entity's type is not enabled. -/
def shouldResetPred (content : ContentState) (enabledTypes : List String)
    (b : Block) : Option Bool :=
  match getEntityAt b 0 with
  | some k =>
    (lookupEntity content k).map (fun e => !(enabledTypes.contains e.etype))
  | none => some false

/-- `.filter(shouldResetPred).map(block => block.set("type", UNSTYLED))`. -/
def collectReset (content : ContentState) (enabledTypes : List String) :
    List Block → Option (List Block)
  | [] => some []
  | b :: rest =>
    (shouldResetPred content enabledTypes b).bind (fun r =>
      (collectReset content enabledTypes rest).map (fun tail =>
        if r then { b with type := UNSTYLED } :: tail else tail))

/-- `resetAtomicBlocks`. Note that the source merges `resetBlocks` into
`blockMap` (the original map), not into `blocks`, so a shape-normalized block
is dropped from the result whenever `resetBlocks` is non-empty and does not
itself contain that block. -/
def resetAtomicBlocks (content : ContentState) (enabledTypes : List String) :
    Option ContentState :=
  let blockMap := content.blocks
  let blocks1 := resetAtomicBlocksMid blockMap
  (collectReset content enabledTypes
      (blocks1.filter (fun b => b.type == ATOMIC))).map (fun resetBlocks =>
    let blocks2 :=
      if resetBlocks.isEmpty then blocks1 else mergeBlocks blockMap resetBlocks
    { content with blocks := mergeBlocks blockMap blocks2 })

/-! ## `filterEntityType` (normalize.js) -/

/-- One character of `filterEntityType`: clear the entity reference when the
entity's type is not enabled, or when it is the image type on a non-atomic
block (`CharacterMetadata.applyEntity(char, null)` keeps the styles). -/
def filterEntityTypeChar (content : ContentState) (enabledTypes : List String)
    (blockType : String) (c : CharMeta) : Option CharMeta :=
  match c.entity with
  | some k =>
    (lookupEntity content k).map (fun e =>
      let shouldFilter := !(enabledTypes.contains e.etype)
      let shouldFilterImage := e.etype == IMAGE && blockType != ATOMIC
      if shouldFilter || shouldFilterImage then { c with entity := none }
      else c)
  | none => some c

/-- One block of `filterEntityType`. The source returns the original block
when no character was altered; the rebuilt block is then equal to it. -/
def filterEntityTypeBlock (content : ContentState)
    (enabledTypes : List String) (b : Block) : Option Block :=
  (mapMOpt (filterEntityTypeChar content enabledTypes b.type) b.chars).map
    (fun chars => { b with chars := chars })

/-- `filterEntityType`: clear disallowed entity references on every character
of every block. -/
def filterEntityType (content : ContentState) (enabledTypes : List String) :
    Option ContentState :=
  (mapMOpt (filterEntityTypeBlock content enabledTypes) content.blocks).map
    (fun blocks => { content with blocks := blocks })

/-! ## `filterEditorState` (normalize.js) -/

/-- The full pipeline `filterEditorState`, threading the content state through
the six passes in source order. The source pushes `HORIZONTAL_RULE` onto the
caller's `entityTypes` array when `enableHorizontalRule` is set; the embedding
appends it. -/
def filterEditorState (content : ContentState) (maxListNesting : Nat)
    (enableHorizontalRule : Bool) (blockTypes : List String)
    (inlineStyles : List String) (entityTypes : List String) :
    Option ContentState :=
  let enabledBlockTypes := blockTypes ++ [UNSTYLED, ATOMIC]
  let enabledEntityTypes :=
    if enableHorizontalRule then entityTypes ++ [HORIZONTAL_RULE]
    else entityTypes
  (preserveAtomicBlocks content [HORIZONTAL_RULE, IMAGE]).bind (fun s1 =>
    (resetAtomicBlocks
        (filterInlineStyle
          (resetBlockType (resetBlockDepth s1 maxListNesting)
            enabledBlockTypes)
          inlineStyles)
        enabledEntityTypes).bind (fun s5 =>
      filterEntityType s5 enabledEntityTypes))

/-! ## Entity helpers (entities.js) -/

/-- `shouldKeepEntityType` (entities.js). -/
def shouldKeepEntityType (enabledTypes : List String) (entityType : String) :
    Bool :=
  enabledTypes.contains entityType

/-- `shouldRemoveImageEntity` (entities.js). -/
def shouldRemoveImageEntity (entityType blockType : String) : Bool :=
  entityType == IMAGE && blockType != ATOMIC

/-- `ContentState.getBlockForKey(key)`. -/
def getBlockForKey (content : ContentState) (k : String) : Option Block :=
  content.blocks.find? (fun b => b.key == k)

/-- `ContentState.getKeyAfter(key)`: key of the block immediately following
the block with key `k`, `none` when `k` is last or does not resolve. -/
def getKeyAfter (content : ContentState) (k : String) : Option String :=
  match content.blocks.findIdx? (fun b => b.key == k) with
  | some i => (content.blocks.get? (i + 1)).map Block.key
  | none => none

/-- `applyContentWithSelection` (entities.js), reduced to the selection it
returns: the original selection when it is not collapsed or its anchor block
still resolves in the new content; otherwise a collapsed selection at the end
of the last block (scanning the new keys in reverse) whose successor differs
between old and new content; the original selection when no key qualifies.
The inner `none` branch is unreachable, since the found key is drawn from the
new content's own key sequence. -/
def applyContentWithSelection (selection : SelectionState)
    (content nextContent : ContentState) : SelectionState :=
  let anchorBlock := getBlockForKey nextContent selection.anchorKey
  let shouldKeepSelection := !(isCollapsed selection) || anchorBlock.isSome
  if shouldKeepSelection then selection
  else
    let nextKeys := nextContent.blocks.map Block.key
    match nextKeys.reverse.find? (fun k =>
        getKeyAfter content k != getKeyAfter nextContent k) with
    | some nextAnchorKey =>
      match getBlockForKey nextContent nextAnchorKey with
      | some nextSelectedBlock =>
        let blockEndOffset := nextSelectedBlock.text.length
        { anchorKey := nextAnchorKey
          focusKey := nextAnchorKey
          anchorOffset := blockEndOffset
          focusOffset := blockEndOffset }
      | none => selection
    | none => selection

/-! ## `filterEntityAttributes` (entities.js) -/

/-- One step of the entity-key collection of `filterEntityAttributes`: the
`entities` object records, in first-insertion order, each entity key reached
by `findEntityRanges`'s per-character callback. -/
def insertEntityKey (acc : List String) (c : CharMeta) : List String :=
  match c.entity with
  | some k => if acc.contains k then acc else acc ++ [k]
  | none => acc

/-- The distinct entity keys referenced by at least one character of the
document, in first-insertion order. -/
def referencedEntityKeys (content : ContentState) : List String :=
  content.blocks.foldl (fun acc b => b.chars.foldl insertEntityKey acc) []

/-- `Object` lookup on an embedded data object. -/
def lookupData (data : List (String × String)) (a : String) : Option String :=
  (data.find? (fun p => p.1 == a)).map (fun p => p.2)

/-- The per-entity body of `filterEntityAttributes`: find the configuration
entry for the entity's type (`none` models the fatal `.attributes` access on
`undefined` when there is none), then keep exactly the whitelisted attributes
that are present in the source data. -/
def filterEntityData (cfg : List EntityConfig) (e : Entity) :
    Option (List (String × String)) :=
  (cfg.find? (fun t => t.type == e.etype)).map (fun entry =>
    entry.attributes.foldl (fun attrs attr =>
      match lookupData e.data attr with
      | some v => attrs ++ [(attr, v)]
      | none => attrs) [])

/-- `ContentState.replaceEntityData(key, newData)`. -/
def replaceEntityData (content : ContentState) (k : String)
    (d : List (String × String)) : ContentState :=
  { content with
    entityMap := content.entityMap.map (fun p =>
      if p.1 == k then (p.1, { p.2 with data := d }) else p) }

/-- `filterEntityAttributes` (entities.js): collect the referenced entities,
then replace each one's data with its whitelisted attributes. `none` models
the uncaught exceptions (unresolvable entity key during collection, missing
configuration entry for a referenced entity's type). -/
def filterEntityAttributes (content : ContentState)
    (enabledEntityTypes : List EntityConfig) : Option ContentState :=
  (mapMOpt (fun k => (lookupEntity content k).map (fun e => (k, e)))
      (referencedEntityKeys content)).bind (fun entities =>
    foldlMOpt (fun c p =>
        (filterEntityData enabledEntityTypes p.2).map (fun newData =>
          replaceEntityData c p.1 newData))
      content entities)

/-- The structural health of a single block used by the alignment claim: its
text and character metadata have the same length, and an atomic block has
non-empty text. -/
def blockOk (b : Block) : Prop :=
  b.text.length = b.chars.length ∧ (b.type = ATOMIC → b.text ≠ "")

/-! ## Concrete documents used by the witnesses and counterexamples -/

/-- A character with no styles and the given entity reference. -/
def plainChar (e : Option String) : CharMeta :=
  { styles := [], entity := e }

/-- C1: a well-shaped atomic block with no entity at offset 0. -/
def exC1doc : ContentState :=
  { blocks := [{ key := "a", type := "atomic", depth := 0, text := " ",
                 chars := [plainChar none] }]
    entityMap := [] }

/-- C2: an atomic block needing shape normalization (two-character text, no
entity) next to a well-shaped atomic block whose entity type is disabled. -/
def exC2doc : ContentState :=
  { blocks :=
      [{ key := "a", type := "atomic", depth := 0, text := "ab",
         chars := [plainChar none, plainChar none] },
       { key := "b", type := "atomic", depth := 0, text := " ",
         chars := [plainChar (some "1")] }]
    entityMap := [("1", { etype := "EMBED", data := [] })] }

/-- C3 counterexample: an atomic block with empty text and an empty character
list. -/
def exC3doc : ContentState :=
  { blocks := [{ key := "a", type := "atomic", depth := 0, text := "",
                 chars := [] }]
    entityMap := [] }

/-- C3 witness: a plain one-block document. -/
def exC3wdoc : ContentState :=
  { blocks := [{ key := "a", type := "unstyled", depth := 0, text := "x",
                 chars := [plainChar none] }]
    entityMap := [] }

/-- C4: a non-atomic block whose single character references an image-type
entity. -/
def exC4doc : ContentState :=
  { blocks := [{ key := "a", type := "unstyled", depth := 0, text := "m",
                 chars := [{ styles := ["BOLD"], entity := some "1" }] }]
    entityMap := [("1", { etype := "IMAGE", data := [] })] }

/-- C4: the expected output of `filterEntityType` on `exC4doc`. -/
def exC4out : ContentState :=
  { blocks := [{ key := "a", type := "unstyled", depth := 0, text := "m",
                 chars := [{ styles := ["BOLD"], entity := none }] }]
    entityMap := [("1", { etype := "IMAGE", data := [] })] }

/-- C5: a block with the given key and text and no styles or entities. -/
def exC5block (k t : String) : Block :=
  { key := k, type := "unstyled", depth := 0, text := t,
    chars := t.data.map (fun _ => plainChar none) }

/-- C5: the old three-block document `[A, B, C]`. -/
def exC5old : ContentState :=
  { blocks := [exC5block "a" "aa", exC5block "b" "bb", exC5block "c" "cc"]
    entityMap := [] }

/-- C5: the new document with block `B` removed. -/
def exC5new : ContentState :=
  { blocks := [exC5block "a" "aa", exC5block "c" "cc"], entityMap := [] }

/-- C5: a collapsed selection on the removed block `B`. -/
def exC5sel : SelectionState :=
  { anchorKey := "b", anchorOffset := 0, focusKey := "b", focusOffset := 0 }

/-- C6: same shape as `exC2doc`, its own copy. -/
def exC6doc : ContentState :=
  { blocks :=
      [{ key := "a", type := "atomic", depth := 0, text := "ab",
         chars := [plainChar none, plainChar none] },
       { key := "b", type := "atomic", depth := 0, text := " ",
         chars := [plainChar (some "1")] }]
    entityMap := [("1", { etype := "EMBED", data := [] })] }

/-- C7: one character references a `LINK` entity. -/
def exC7doc : ContentState :=
  { blocks := [{ key := "a", type := "unstyled", depth := 0, text := "x",
                 chars := [plainChar (some "1")] }]
    entityMap := [("1", { etype := "LINK",
                          data := [("url", "http://x")] })] }

/-- C8: scenario F input, a `LINK` entity with `url` and `title` data. -/
def exC8doc : ContentState :=
  { blocks := [{ key := "a", type := "unstyled", depth := 0, text := "x",
                 chars := [plainChar (some "1")] }]
    entityMap := [("1", { etype := "LINK",
                          data := [("url", "http://x"), ("title", "evil")] })] }

/-- C8: configuration whitelisting only `url` on `LINK`. -/
def exC8cfg : List EntityConfig :=
  [{ type := "LINK", attributes := ["url"] }]

/-- C8: the output of `filterEntityAttributes` on `exC8doc` with `exC8cfg`. -/
def exC8out : ContentState :=
  { blocks := [{ key := "a", type := "unstyled", depth := 0, text := "x",
                 chars := [plainChar (some "1")] }]
    entityMap := [("1", { etype := "LINK", data := [("url", "http://x")] })] }

/-- C9/C10 witness: a two-block document through the full pipeline. -/
def exC9doc : ContentState :=
  { blocks :=
      [{ key := "a", type := "blockquote", depth := 0, text := "x",
         chars := [plainChar none] },
       { key := "b", type := "unstyled", depth := 2, text := "y",
         chars := [plainChar none] }]
    entityMap := [] }

/-- C10 witness: its own copy of a two-block document. -/
def exC10doc : ContentState :=
  { blocks :=
      [{ key := "a", type := "blockquote", depth := 0, text := "x",
         chars := [plainChar none] },
       { key := "b", type := "unstyled", depth := 2, text := "y",
         chars := [plainChar none] }]
    entityMap := [] }

/-- C9 witness: the pipeline output on `exC9doc`. -/
def exC9out : ContentState :=
  { blocks :=
      [{ key := "a", type := "unstyled", depth := 0, text := "x",
         chars := [plainChar none] },
       { key := "b", type := "unstyled", depth := 1, text := "y",
         chars := [plainChar none] }]
    entityMap := [] }

/-- C10 witness: the pipeline output on `exC10doc`. -/
def exC10out : ContentState :=
  { blocks :=
      [{ key := "a", type := "unstyled", depth := 0, text := "x",
         chars := [plainChar none] },
       { key := "b", type := "unstyled", depth := 1, text := "y",
         chars := [plainChar none] }]
    entityMap := [] }

/-- C1 witness: a well-shaped atomic block whose entity type is disabled. -/
def exC1wdoc : ContentState :=
  { blocks := [{ key := "a", type := "atomic", depth := 0, text := " ",
                 chars := [plainChar (some "1")] }]
    entityMap := [("1", { etype := "EMBED", data := [] })] }

/-- C1 witness: the output of `resetAtomicBlocks` on `exC1wdoc` with no
enabled entity types. -/
def exC1wout : ContentState :=
  { blocks := [{ key := "a", type := "unstyled", depth := 0, text := " ",
                 chars := [plainChar (some "1")] }]
    entityMap := [("1", { etype := "EMBED", data := [] })] }

/-- C8 witness: the referenced entity of `exC8doc`. -/
def exC8entity : Entity :=
  { etype := "LINK", data := [("url", "http://x"), ("title", "evil")] }

/-- C8 witness: the configuration entry for the `LINK` type in `exC8cfg`. -/
def exC8entry : EntityConfig :=
  { type := "LINK", attributes := ["url"] }

/-! ## Helper lemmas: block-map merging and keyed lookup -/

theorem mergeBlocks_getElem? (orig changed : List Block) (i : Nat) :
    (mergeBlocks orig changed).get? i =
      (orig.get? i).map (fun b =>
        match changed.find? (fun c => c.key == b.key) with
        | some c => c
        | none => b) := by
  simp [mergeBlocks, List.get?_eq_getElem?, List.getElem?_map]

theorem mergeBlocks_map_key (orig changed : List Block) :
    (mergeBlocks orig changed).map Block.key = orig.map Block.key := by
  unfold mergeBlocks
  rw [List.map_map]
  apply List.map_congr_left
  intro b _
  simp only [Function.comp]
  cases hf : changed.find? (fun c => c.key == b.key) with
  | none => rfl
  | some c =>
    have h1 : (c.key == b.key) = true := by simpa using List.find?_some hf
    exact eq_of_beq h1

theorem mem_mergeBlocks (orig changed : List Block) (y : Block)
    (hy : y ∈ mergeBlocks orig changed) : y ∈ orig ∨ y ∈ changed := by
  unfold mergeBlocks at hy
  rcases List.mem_map.mp hy with ⟨b, hb, hyb⟩
  cases hf : changed.find? (fun c => c.key == b.key) with
  | none =>
    rw [hf] at hyb
    exact Or.inl (hyb ▸ hb)
  | some c =>
    rw [hf] at hyb
    exact Or.inr (hyb ▸ List.mem_of_find?_eq_some hf)

theorem key_eq_of_nodup (l : List Block)
    (hnd : (l.map Block.key).Nodup) (x y : Block) (hx : x ∈ l) (hy : y ∈ l)
    (hk : x.key = y.key) : x = y := by
  induction l with
  | nil => cases hx
  | cons a t ih =>
    rw [List.map_cons, List.nodup_cons] at hnd
    rcases List.mem_cons.mp hx with hxa | hxt
    · rcases List.mem_cons.mp hy with hya | hyt
      · exact hxa.trans hya.symm
      · exfalso
        apply hnd.1
        rw [hxa] at hk
        rw [hk]
        exact List.mem_map_of_mem Block.key hyt
    · rcases List.mem_cons.mp hy with hya | hyt
      · exfalso
        apply hnd.1
        rw [hya] at hk
        rw [← hk]
        exact List.mem_map_of_mem Block.key hxt
      · exact ih hnd.2 hxt hyt

theorem find?_key_of_getElem? (l : List Block)
    (hnd : (l.map Block.key).Nodup) (i : Nat) (b : Block)
    (hb : l.get? i = some b) :
    l.find? (fun c => c.key == b.key) = some b := by
  induction l generalizing i with
  | nil => simp [List.get?] at hb
  | cons a t ih =>
    rw [List.map_cons, List.nodup_cons] at hnd
    cases i with
    | zero =>
      rw [List.get?_cons_zero] at hb
      cases hb
      exact List.find?_cons_of_pos t (beq_self_eq_true b.key)
    | succ n =>
      rw [List.get?_cons_succ] at hb
      have hbt : b ∈ t := List.get?_mem hb
      have hne : a.key ≠ b.key := by
        intro h
        exact hnd.1 (h ▸ List.mem_map_of_mem Block.key hbt)
      rw [List.find?_cons_of_neg t (by simpa using hne)]
      exact ih hnd.2 n hb

theorem find?_key_of_unique (l : List Block) (key : String) (z : Block)
    (hz : z ∈ l) (hzk : z.key = key)
    (huniq : ∀ y ∈ l, y.key = key → y = z) :
    l.find? (fun c => c.key == key) = some z := by
  induction l with
  | nil => cases hz
  | cons a t ih =>
    by_cases ha : a.key = key
    · rw [List.find?_cons_of_pos t (by simpa using ha)]
      exact congrArg some (huniq a (List.mem_cons_self a t) ha)
    · rw [List.find?_cons_of_neg t (by simpa using ha)]
      rcases List.mem_cons.mp hz with hza | hzt
      · exact absurd (hza ▸ hzk) ha
      · exact ih hzt (fun y hy => huniq y (List.mem_cons_of_mem a hy))

theorem find?_key_eq_none (l : List Block) (key : String)
    (h : ∀ y ∈ l, y.key ≠ key) :
    l.find? (fun c => c.key == key) = none :=
  List.find?_eq_none.mpr (fun y hy => by simpa using h y hy)

theorem find?_key_filter_map (l : List Block) (p : Block → Bool)
    (f : Block → Block) (hf : ∀ x, (f x).key = x.key)
    (hnd : (l.map Block.key).Nodup) (b : Block) (hb : b ∈ l) :
    ((l.filter p).map f).find? (fun c => c.key == b.key) =
      if p b then some (f b) else none := by
  by_cases hpb : p b
  · rw [if_pos hpb]
    apply find?_key_of_unique _ _ (f b)
    · exact List.mem_map_of_mem f (List.mem_filter.mpr ⟨hb, hpb⟩)
    · exact hf b
    · intro y hy hyk
      rcases List.mem_map.mp hy with ⟨x, hx, hxy⟩
      have hxl : x ∈ l := (List.mem_filter.mp hx).1
      have : x = b := by
        apply key_eq_of_nodup l hnd x b hxl hb
        rw [← hyk, ← hxy, hf]
      rw [← hxy, this]
  · rw [if_neg hpb]
    apply find?_key_eq_none
    intro y hy
    rcases List.mem_map.mp hy with ⟨x, hx, hxy⟩
    rcases List.mem_filter.mp hx with ⟨hxl, hpx⟩
    intro hk
    have : x = b := by
      apply key_eq_of_nodup l hnd x b hxl hb
      rw [← hk, ← hxy, hf]
    rw [this] at hpx
    exact hpb hpx

/-! ## Helper lemmas: the `Option` traversals -/

theorem mapMOpt_length (f : α → Option β) (l : List α) (out : List β)
    (h : mapMOpt f l = some out) : out.length = l.length := by
  induction l generalizing out with
  | nil =>
    simp [mapMOpt] at h
    simp [← h]
  | cons x xs ih =>
    simp only [mapMOpt, Option.bind_eq_some, Option.map_eq_some'] at h
    rcases h with ⟨y, _, ys, hys, hout⟩
    simp [← hout, ih ys hys]

theorem mapMOpt_getElem? (f : α → Option β) (l : List α) (out : List β)
    (h : mapMOpt f l = some out) (i : Nat) (x : α) (hx : l.get? i = some x) :
    ∃ y, f x = some y ∧ out.get? i = some y := by
  induction l generalizing out i with
  | nil => simp [List.get?] at hx
  | cons a xs ih =>
    simp only [mapMOpt, Option.bind_eq_some, Option.map_eq_some'] at h
    rcases h with ⟨y, hy, ys, hys, hout⟩
    cases i with
    | zero =>
      rw [List.get?_cons_zero] at hx
      cases hx
      exact ⟨y, hy, by simp [← hout]⟩
    | succ n =>
      rw [List.get?_cons_succ] at hx
      rcases ih ys hys n hx with ⟨y2, hy2, hget⟩
      refine ⟨y2, hy2, ?_⟩
      rw [← hout, List.get?_cons_succ]
      exact hget

theorem mapMOpt_mem (f : α → Option β) (l : List α) (out : List β)
    (h : mapMOpt f l = some out) (y : β) (hy : y ∈ out) :
    ∃ x ∈ l, f x = some y := by
  induction l generalizing out with
  | nil =>
    simp [mapMOpt] at h
    rw [h] at hy
    cases hy
  | cons a xs ih =>
    simp only [mapMOpt, Option.bind_eq_some, Option.map_eq_some'] at h
    rcases h with ⟨y1, hy1, ys, hys, hout⟩
    rw [← hout] at hy
    rcases List.mem_cons.mp hy with hya | hyt
    · exact ⟨a, List.mem_cons_self a xs, hya ▸ hy1⟩
    · rcases ih ys hys hyt with ⟨x, hx, hfx⟩
      exact ⟨x, List.mem_cons_of_mem a hx, hfx⟩

theorem mapMOpt_isSome (f : α → Option β) (l : List α)
    (h : ∀ x ∈ l, (f x).isSome) : (mapMOpt f l).isSome := by
  induction l with
  | nil => simp [mapMOpt]
  | cons a xs ih =>
    rcases Option.isSome_iff_exists.mp (h a (List.mem_cons_self a xs)) with
      ⟨y, hy⟩
    rcases Option.isSome_iff_exists.mp
        (ih (fun x hx => h x (List.mem_cons_of_mem a hx))) with ⟨ys, hys⟩
    simp [mapMOpt, hy, hys]

theorem mapMOpt_mem_of (f : α → Option β) (l : List α) (out : List β)
    (h : mapMOpt f l = some out) (x : α) (hx : x ∈ l) (y : β)
    (hy : f x = some y) : y ∈ out := by
  induction l generalizing out with
  | nil => cases hx
  | cons a xs ih =>
    simp only [mapMOpt, Option.bind_eq_some, Option.map_eq_some'] at h
    rcases h with ⟨y1, hy1, ys, hys, hout⟩
    rcases List.mem_cons.mp hx with hxa | hxt
    · rw [hxa] at hy
      rw [hy1] at hy
      cases hy
      rw [← hout]
      exact List.mem_cons_self y ys
    · rw [← hout]
      exact List.mem_cons_of_mem y1 (ih ys hys hxt)

theorem collectReset_mem (content : ContentState) (en : List String)
    (l : List Block) (out : List Block)
    (h : collectReset content en l = some out) (y : Block) (hy : y ∈ out) :
    ∃ x ∈ l, shouldResetPred content en x = some true ∧
      y = { x with type := UNSTYLED } := by
  induction l generalizing out with
  | nil =>
    simp [collectReset] at h
    rw [h] at hy
    cases hy
  | cons a xs ih =>
    simp only [collectReset, Option.bind_eq_some, Option.map_eq_some'] at h
    rcases h with ⟨r, hr, tail, htail, hout⟩
    cases r with
    | true =>
      rw [if_pos rfl] at hout
      rw [← hout] at hy
      rcases List.mem_cons.mp hy with hya | hyt
      · exact ⟨a, List.mem_cons_self a xs, hr, hya⟩
      · rcases ih tail htail hyt with ⟨x, hx, hpx, hyx⟩
        exact ⟨x, List.mem_cons_of_mem a hx, hpx, hyx⟩
    | false =>
      rw [if_neg Bool.false_ne_true] at hout
      rw [← hout] at hy
      rcases ih tail htail hy with ⟨x, hx, hpx, hyx⟩
      exact ⟨x, List.mem_cons_of_mem a hx, hpx, hyx⟩

theorem collectReset_mem_of (content : ContentState) (en : List String)
    (l : List Block) (out : List Block)
    (h : collectReset content en l = some out) (x : Block) (hx : x ∈ l)
    (hpx : shouldResetPred content en x = some true) :
    { x with type := UNSTYLED } ∈ out := by
  induction l generalizing out with
  | nil => cases hx
  | cons a xs ih =>
    simp only [collectReset, Option.bind_eq_some, Option.map_eq_some'] at h
    rcases h with ⟨r, hr, tail, htail, hout⟩
    rcases List.mem_cons.mp hx with hxa | hxt
    · subst hxa
      rw [hr] at hpx
      cases hpx
      rw [if_pos rfl] at hout
      rw [← hout]
      exact List.mem_cons_self _ tail
    · have hmem := ih tail htail hxt
      cases r with
      | true =>
        rw [if_pos rfl] at hout
        rw [← hout]
        exact List.mem_cons_of_mem _ hmem
      | false =>
        rw [if_neg Bool.false_ne_true] at hout
        rw [← hout]
        exact hmem

theorem collectReset_isSome (content : ContentState) (en : List String)
    (l : List Block)
    (h : ∀ x ∈ l, (shouldResetPred content en x).isSome) :
    (collectReset content en l).isSome := by
  induction l with
  | nil => simp [collectReset]
  | cons a xs ih =>
    rcases Option.isSome_iff_exists.mp (h a (List.mem_cons_self a xs)) with
      ⟨r, hr⟩
    rcases Option.isSome_iff_exists.mp
        (ih (fun x hx => h x (List.mem_cons_of_mem a hx))) with ⟨tail, htail⟩
    simp [collectReset, hr, htail]

theorem collectPreserved_mem (content : ContentState) (en : List String)
    (l : List Block) (out : List Block)
    (h : collectPreserved content en l = some out) (y : Block) (hy : y ∈ out) :
    ∃ x ∈ l, preservePred content en x = some true ∧
      y = { x with type := ATOMIC } := by
  induction l generalizing out with
  | nil =>
    simp [collectPreserved] at h
    rw [h] at hy
    cases hy
  | cons a xs ih =>
    simp only [collectPreserved, Option.bind_eq_some, Option.map_eq_some'] at h
    rcases h with ⟨r, hr, tail, htail, hout⟩
    cases r with
    | true =>
      rw [if_pos rfl] at hout
      rw [← hout] at hy
      rcases List.mem_cons.mp hy with hya | hyt
      · exact ⟨a, List.mem_cons_self a xs, hr, hya⟩
      · rcases ih tail htail hyt with ⟨x, hx, hpx, hyx⟩
        exact ⟨x, List.mem_cons_of_mem a hx, hpx, hyx⟩
    | false =>
      rw [if_neg Bool.false_ne_true] at hout
      rw [← hout] at hy
      rcases ih tail htail hy with ⟨x, hx, hpx, hyx⟩
      exact ⟨x, List.mem_cons_of_mem a hx, hpx, hyx⟩

theorem foldlMOpt_none_of_mem (f : γ → α → Option γ) (init : γ) (l : List α)
    (p : α) (hp : p ∈ l) (hf : ∀ acc, f acc p = none) :
    foldlMOpt f init l = none := by
  induction l generalizing init with
  | nil => cases hp
  | cons a xs ih =>
    rcases List.mem_cons.mp hp with hpa | hpt
    · rw [hpa] at hf
      unfold foldlMOpt
      rw [hf init]
    · unfold foldlMOpt
      cases f init a with
      | none => rfl
      | some c2 => exact ih c2 hpt

theorem foldlMOpt_isSome (f : γ → α → Option γ) (init : γ) (l : List α)
    (h : ∀ acc, ∀ p ∈ l, (f acc p).isSome) :
    (foldlMOpt f init l).isSome := by
  induction l generalizing init with
  | nil => simp [foldlMOpt]
  | cons a xs ih =>
    rcases Option.isSome_iff_exists.mp (h init a (List.mem_cons_self a xs))
      with ⟨c2, hc2⟩
    unfold foldlMOpt
    rw [hc2]
    exact ih c2 (fun acc p hp => h acc p (List.mem_cons_of_mem a hp))

/-! ## Helper lemmas: per-pass block membership and key preservation -/

theorem preserveAtomicBlocks_mem (content : ContentState) (t : List String)
    (out : ContentState) (h : preserveAtomicBlocks content t = some out)
    (y : Block) (hy : y ∈ out.blocks) :
    y ∈ content.blocks ∨
      ∃ x ∈ content.blocks, preservePred content t x = some true ∧
        y = { x with type := ATOMIC } := by
  unfold preserveAtomicBlocks at h
  rw [Option.map_eq_some'] at h
  rcases h with ⟨preserved, hp, hout⟩
  by_cases he : preserved.isEmpty
  · rw [if_pos he] at hout
    rw [← hout] at hy
    exact Or.inl hy
  · rw [if_neg he] at hout
    rw [← hout] at hy
    rcases mem_mergeBlocks content.blocks preserved y hy with hyo | hyc
    · exact Or.inl hyo
    · exact Or.inr (collectPreserved_mem content t content.blocks preserved hp
        y hyc)

theorem preserveAtomicBlocks_keys (content : ContentState) (t : List String)
    (out : ContentState) (h : preserveAtomicBlocks content t = some out) :
    out.blocks.map Block.key = content.blocks.map Block.key := by
  unfold preserveAtomicBlocks at h
  rw [Option.map_eq_some'] at h
  rcases h with ⟨preserved, _, hout⟩
  by_cases he : preserved.isEmpty
  · rw [if_pos he] at hout
    rw [← hout]
  · rw [if_neg he] at hout
    rw [← hout]
    exact mergeBlocks_map_key content.blocks preserved

theorem resetBlockDepth_mem (content : ContentState) (m : Nat) (y : Block)
    (hy : y ∈ (resetBlockDepth content m).blocks) :
    y ∈ content.blocks ∨ ∃ x ∈ content.blocks, y = { x with depth := m } := by
  unfold resetBlockDepth at hy
  by_cases he : ((content.blocks.filter
      (fun b => decide (m < b.depth))).map
        (fun b => { b with depth := m })).isEmpty
  · rw [if_pos he] at hy
    exact Or.inl hy
  · rw [if_neg he] at hy
    rcases mem_mergeBlocks _ _ y hy with hyo | hyc
    · exact Or.inl hyo
    · rcases List.mem_map.mp hyc with ⟨x, hx, hxy⟩
      exact Or.inr ⟨x, (List.mem_filter.mp hx).1, hxy.symm⟩

theorem resetBlockDepth_keys (content : ContentState) (m : Nat) :
    (resetBlockDepth content m).blocks.map Block.key =
      content.blocks.map Block.key := by
  unfold resetBlockDepth
  by_cases he : ((content.blocks.filter
      (fun b => decide (m < b.depth))).map
        (fun b => { b with depth := m })).isEmpty
  · rw [if_pos he]
  · rw [if_neg he]
    exact mergeBlocks_map_key _ _

theorem resetBlockType_mem (content : ContentState) (en : List String)
    (y : Block) (hy : y ∈ (resetBlockType content en).blocks) :
    y ∈ content.blocks ∨
      ∃ x ∈ content.blocks, y = { x with type := UNSTYLED } := by
  unfold resetBlockType at hy
  by_cases he : ((content.blocks.filter
      (fun b => !(en.contains b.type))).map
        (fun b => { b with type := UNSTYLED })).isEmpty
  · rw [if_pos he] at hy
    exact Or.inl hy
  · rw [if_neg he] at hy
    rcases mem_mergeBlocks _ _ y hy with hyo | hyc
    · exact Or.inl hyo
    · rcases List.mem_map.mp hyc with ⟨x, hx, hxy⟩
      exact Or.inr ⟨x, (List.mem_filter.mp hx).1, hxy.symm⟩

theorem resetBlockType_keys (content : ContentState) (en : List String) :
    (resetBlockType content en).blocks.map Block.key =
      content.blocks.map Block.key := by
  unfold resetBlockType
  by_cases he : ((content.blocks.filter
      (fun b => !(en.contains b.type))).map
        (fun b => { b with type := UNSTYLED })).isEmpty
  · rw [if_pos he]
  · rw [if_neg he]
    exact mergeBlocks_map_key _ _

theorem resetBlockType_types (content : ContentState) (en : List String)
    (y : Block) (hy : y ∈ (resetBlockType content en).blocks) :
    en.contains y.type = true ∨ y.type = UNSTYLED := by
  unfold resetBlockType at hy
  by_cases he : ((content.blocks.filter
      (fun b => !(en.contains b.type))).map
        (fun b => { b with type := UNSTYLED })).isEmpty
  · rw [if_pos he] at hy
    have hnil := List.map_eq_nil_iff.mp (List.isEmpty_iff.mp he)
    have hall := List.filter_eq_nil_iff.mp hnil
    left
    have := hall y hy
    simpa using this
  · rw [if_neg he] at hy
    unfold mergeBlocks at hy
    rcases List.mem_map.mp hy with ⟨b, hb, hyb⟩
    cases hf : (((content.blocks.filter
        (fun b => !(en.contains b.type))).map
          (fun b => { b with type := UNSTYLED })).find?
            (fun c => c.key == b.key)) with
    | some c =>
      rw [hf] at hyb
      rcases List.mem_map.mp (List.mem_of_find?_eq_some hf) with ⟨x, _, hxc⟩
      right
      rw [← hyb, ← hxc]
    | none =>
      rw [hf] at hyb
      left
      rw [← hyb]
      by_contra hc
      have hbf : b ∈ content.blocks.filter (fun b => !(en.contains b.type)) :=
        List.mem_filter.mpr ⟨hb, by simpa using hc⟩
      have hmem : ({ b with type := UNSTYLED } : Block) ∈
          (content.blocks.filter (fun b => !(en.contains b.type))).map
            (fun b => { b with type := UNSTYLED }) :=
        List.mem_map_of_mem _ hbf
      have := List.find?_eq_none.mp hf _ hmem
      simp at this

theorem filterInlineStyle_mem (content : ContentState) (s : List String)
    (y : Block) (hy : y ∈ (filterInlineStyle content s).blocks) :
    ∃ x ∈ content.blocks, y.key = x.key ∧ y.type = x.type ∧ y.text = x.text ∧
      y.depth = x.depth ∧ y.chars.length = x.chars.length := by
  unfold filterInlineStyle at hy
  rcases List.mem_map.mp hy with ⟨x, hx, hxy⟩
  exact ⟨x, hx, by rw [← hxy], by rw [← hxy], by rw [← hxy], by rw [← hxy],
    by rw [← hxy]; simp⟩

theorem filterInlineStyle_keys (content : ContentState) (s : List String) :
    (filterInlineStyle content s).blocks.map Block.key =
      content.blocks.map Block.key := by
  unfold filterInlineStyle
  rw [List.map_map]
  rfl

theorem resetAtomicBlocksMid_mem (blockMap : List Block) (y : Block)
    (hy : y ∈ resetAtomicBlocksMid blockMap) :
    y ∈ blockMap ∨
      ∃ x ∈ blockMap, atomicNormPred x = true ∧ y = atomicNormalise x := by
  unfold resetAtomicBlocksMid at hy
  by_cases he : (resetAtomicBlocksNormalised blockMap).isEmpty
  · rw [if_pos he] at hy
    exact Or.inl hy
  · rw [if_neg he] at hy
    rcases mem_mergeBlocks _ _ y hy with hyo | hyc
    · exact Or.inl hyo
    · unfold resetAtomicBlocksNormalised at hyc
      rcases List.mem_map.mp hyc with ⟨x, hx, hxy⟩
      rcases List.mem_filter.mp hx with ⟨hxl, hpx⟩
      exact Or.inr ⟨x, hxl, hpx, hxy.symm⟩

theorem resetAtomicBlocks_mem (content : ContentState) (en : List String)
    (out : ContentState) (h : resetAtomicBlocks content en = some out)
    (y : Block) (hy : y ∈ out.blocks) :
    y ∈ content.blocks ∨
      (∃ x ∈ content.blocks, atomicNormPred x = true ∧ y = atomicNormalise x) ∨
      (∃ x1, y = { x1 with type := UNSTYLED } ∧
        (x1 ∈ content.blocks ∨
          ∃ x ∈ content.blocks, atomicNormPred x = true ∧
            x1 = atomicNormalise x)) := by
  unfold resetAtomicBlocks at h
  rw [Option.map_eq_some'] at h
  rcases h with ⟨resetBlocks, hr, hout⟩
  rw [← hout] at hy
  rcases mem_mergeBlocks _ _ y hy with hyo | hy2
  · exact Or.inl hyo
  · by_cases he : resetBlocks.isEmpty
    · rw [if_pos he] at hy2
      rcases resetAtomicBlocksMid_mem content.blocks y hy2 with hyo | hyn
      · exact Or.inl hyo
      · exact Or.inr (Or.inl hyn)
    · rw [if_neg he] at hy2
      rcases mem_mergeBlocks _ _ y hy2 with hyo | hyc
      · exact Or.inl hyo
      · rcases collectReset_mem content en _ resetBlocks hr y hyc with
          ⟨x1, hx1, _, hyx1⟩
        have hx1m : x1 ∈ resetAtomicBlocksMid content.blocks :=
          (List.mem_filter.mp hx1).1
        rcases resetAtomicBlocksMid_mem content.blocks x1 hx1m with hxo | hxn
        · exact Or.inr (Or.inr ⟨x1, hyx1, Or.inl hxo⟩)
        · exact Or.inr (Or.inr ⟨x1, hyx1, Or.inr hxn⟩)

theorem resetAtomicBlocks_keys (content : ContentState) (en : List String)
    (out : ContentState) (h : resetAtomicBlocks content en = some out) :
    out.blocks.map Block.key = content.blocks.map Block.key := by
  unfold resetAtomicBlocks at h
  rw [Option.map_eq_some'] at h
  rcases h with ⟨resetBlocks, _, hout⟩
  rw [← hout]
  exact mergeBlocks_map_key _ _

theorem mapMOpt_map (f : α → Option β) (g1 : α → γ) (g2 : β → γ)
    (l : List α) (out : List β) (h : mapMOpt f l = some out)
    (hg : ∀ x y, f x = some y → g2 y = g1 x) : out.map g2 = l.map g1 := by
  induction l generalizing out with
  | nil =>
    simp [mapMOpt] at h
    simp [h]
  | cons a xs ih =>
    simp only [mapMOpt, Option.bind_eq_some, Option.map_eq_some'] at h
    rcases h with ⟨y, hy, ys, hys, hout⟩
    rw [← hout, List.map_cons, List.map_cons, hg a y hy, ih ys hys]

theorem filterEntityTypeBlock_fields (content : ContentState)
    (en : List String) (b y : Block)
    (h : filterEntityTypeBlock content en b = some y) :
    y.key = b.key ∧ y.type = b.type ∧ y.text = b.text ∧ y.depth = b.depth ∧
      y.chars.length = b.chars.length := by
  unfold filterEntityTypeBlock at h
  rw [Option.map_eq_some'] at h
  rcases h with ⟨chars, hc, hy⟩
  rw [← hy]
  exact ⟨rfl, rfl, rfl, rfl, mapMOpt_length _ _ _ hc⟩

theorem filterEntityType_mem (content : ContentState) (en : List String)
    (out : ContentState) (h : filterEntityType content en = some out)
    (y : Block) (hy : y ∈ out.blocks) :
    ∃ x ∈ content.blocks, filterEntityTypeBlock content en x = some y := by
  unfold filterEntityType at h
  rw [Option.map_eq_some'] at h
  rcases h with ⟨blocks, hb, hout⟩
  rw [← hout] at hy
  exact mapMOpt_mem _ _ _ hb y hy

theorem filterEntityType_keys (content : ContentState) (en : List String)
    (out : ContentState) (h : filterEntityType content en = some out) :
    out.blocks.map Block.key = content.blocks.map Block.key := by
  unfold filterEntityType at h
  rw [Option.map_eq_some'] at h
  rcases h with ⟨blocks, hb, hout⟩
  rw [← hout]
  exact mapMOpt_map _ Block.key Block.key _ _ hb
    (fun x y hxy => (filterEntityTypeBlock_fields content en x y hxy).1)

/-! ## Claim theorems -/

/-- C10: the full pipeline `filterEditorState` never adds, removes, or
reorders blocks — the output document has exactly the same block keys in the
same order as the input document, for every input and configuration. -/
theorem filterEditorState_preserves_keys (content : ContentState)
    (m : Nat) (hr : Bool) (bt is et : List String) (out : ContentState)
    (hout : filterEditorState content m hr bt is et = some out) :
    out.blocks.map Block.key = content.blocks.map Block.key := by
  unfold filterEditorState at hout
  rw [Option.bind_eq_some] at hout
  rcases hout with ⟨s1, hs1, hrest⟩
  rw [Option.bind_eq_some] at hrest
  rcases hrest with ⟨s5, hs5, hs6⟩
  rw [filterEntityType_keys _ _ _ hs6]
  rw [resetAtomicBlocks_keys _ _ _ hs5]
  rw [filterInlineStyle_keys]
  rw [resetBlockType_keys]
  rw [resetBlockDepth_keys]
  exact preserveAtomicBlocks_keys _ _ _ hs1

/-- C10 witness: the key-preservation theorem applied to a concrete two-block
document. -/
theorem filterEditorState_preserves_keys_witness :
    ∃ out, filterEditorState exC10doc 1 false [] [] [] = some out ∧
      out.blocks.map Block.key = exC10doc.blocks.map Block.key := by
  refine ⟨exC10out, ?_, ?_⟩
  · rfl
  · exact filterEditorState_preserves_keys exC10doc 1 false [] [] []
      exC10out rfl

/-- C9: every block in the output of the full pipeline has a type that is in
the caller's `enabledBlockTypes` or is `unstyled` or `atomic`; the
orchestrator force-enables `unstyled` and `atomic` regardless of caller
configuration. -/
theorem filterEditorState_type_whitelist (content : ContentState)
    (m : Nat) (hr : Bool) (bt is et : List String) (out : ContentState)
    (hout : filterEditorState content m hr bt is et = some out) :
    ∀ y ∈ out.blocks, y.type ∈ bt ∨ y.type = UNSTYLED ∨ y.type = ATOMIC := by
  unfold filterEditorState at hout
  rw [Option.bind_eq_some] at hout
  rcases hout with ⟨s1, hs1, hrest⟩
  rw [Option.bind_eq_some] at hrest
  rcases hrest with ⟨s5, hs5, hs6⟩
  have hUN : UNSTYLED ∈ bt ++ [UNSTYLED, ATOMIC] :=
    List.mem_append_right bt (List.mem_cons_self UNSTYLED [ATOMIC])
  have h3 : ∀ y ∈ (resetBlockType (resetBlockDepth s1 m)
      (bt ++ [UNSTYLED, ATOMIC])).blocks,
      y.type ∈ bt ++ [UNSTYLED, ATOMIC] := by
    intro y hy
    rcases resetBlockType_types (resetBlockDepth s1 m)
        (bt ++ [UNSTYLED, ATOMIC]) y hy with hc | hu
    · exact List.elem_iff.mp hc
    · rw [hu]
      exact hUN
  have h4 : ∀ y ∈ (filterInlineStyle (resetBlockType (resetBlockDepth s1 m)
      (bt ++ [UNSTYLED, ATOMIC])) is).blocks,
      y.type ∈ bt ++ [UNSTYLED, ATOMIC] := by
    intro y hy
    rcases filterInlineStyle_mem _ is y hy with ⟨x, hx, _, hty, _⟩
    rw [hty]
    exact h3 x hx
  have h5 : ∀ y ∈ s5.blocks, y.type ∈ bt ++ [UNSTYLED, ATOMIC] := by
    intro y hy
    rcases resetAtomicBlocks_mem _ _ s5 hs5 y hy with hyo | hyn | hyr
    · exact h4 y hyo
    · rcases hyn with ⟨x, hx, _, hyx⟩
      rw [hyx]
      exact h4 x hx
    · rcases hyr with ⟨x1, hyx1, _⟩
      rw [hyx1]
      exact hUN
  have h6 : ∀ y ∈ out.blocks, y.type ∈ bt ++ [UNSTYLED, ATOMIC] := by
    intro y hy
    rcases filterEntityType_mem s5 _ out hs6 y hy with ⟨x, hx, hxy⟩
    rw [(filterEntityTypeBlock_fields _ _ x y hxy).2.1]
    exact h5 x hx
  intro y hy
  rcases List.mem_append.mp (h6 y hy) with hbt | htail
  · exact Or.inl hbt
  · rcases List.mem_cons.mp htail with hu | ha
    · exact Or.inr (Or.inl hu)
    · rcases List.mem_cons.mp ha with ha2 | hnil
      · exact Or.inr (Or.inr ha2)
      · cases hnil

/-- C9 witness: the type-whitelist theorem applied to a concrete two-block
document whose `blockquote` block is reset. -/
theorem filterEditorState_type_whitelist_witness :
    ∃ out, filterEditorState exC9doc 1 false [] [] [] = some out ∧
      ∀ y ∈ out.blocks, y.type ∈ ([] : List String) ∨ y.type = UNSTYLED ∨
        y.type = ATOMIC := by
  refine ⟨exC9out, rfl, ?_⟩
  exact filterEditorState_type_whitelist exC9doc 1 false [] [] [] exC9out rfl

/-! ## Helper lemmas: the alignment invariant -/

theorem string_eq_empty_of_length (s : String) (h : s.length = 0) :
    s = "" := by
  cases s with
  | mk data =>
    simp [String.length] at h
    simp [h]

theorem getEntityAt_zero_chars_ne_nil (x : Block) (k : String)
    (h : getEntityAt x 0 = some k) : x.chars ≠ [] := by
  intro hnil
  unfold getEntityAt at h
  rw [hnil] at h
  simp [List.get?] at h

theorem preservePred_true_entity (content : ContentState) (t : List String)
    (x : Block) (h : preservePred content t x = some true) :
    ∃ k, getEntityAt x 0 = some k := by
  unfold preservePred at h
  cases hE : getEntityAt x 0 with
  | some k => exact ⟨k, rfl⟩
  | none =>
    rw [hE] at h
    cases h

theorem blockOk_text_length_ne_zero (x : Block) (hok : blockOk x)
    (hatomic : x.type = ATOMIC) : x.chars.length ≠ 0 := by
  intro h0
  rw [← hok.1] at h0
  exact hok.2 hatomic (string_eq_empty_of_length x.text h0)

theorem atomicNormalise_ok (x : Block) (hpred : atomicNormPred x = true)
    (hok : blockOk x) : blockOk (atomicNormalise x) := by
  have hatomic : x.type = ATOMIC := by
    unfold atomicNormPred at hpred
    rw [Bool.and_eq_true] at hpred
    exact eq_of_beq hpred.1
  have hne : x.chars.length ≠ 0 := blockOk_text_length_ne_zero x hok hatomic
  have hl : (atomicNormalise x).chars.length = 1 := by
    simp [atomicNormalise, List.length_take]
    omega
  constructor
  · rw [hl]
    rfl
  · intro _
    have ht : (atomicNormalise x).text = " " := rfl
    rw [ht]
    intro habs
    exact absurd habs (by decide)

theorem blockOk_preserveAtomicBlocks (content : ContentState)
    (t : List String) (out : ContentState)
    (h : preserveAtomicBlocks content t = some out)
    (hin : ∀ b ∈ content.blocks, blockOk b) :
    ∀ b ∈ out.blocks, blockOk b := by
  intro y hy
  rcases preserveAtomicBlocks_mem content t out h y hy with hyo | ⟨x, hx, hpx, hyx⟩
  · exact hin y hyo
  · rcases preservePred_true_entity content t x hpx with ⟨k, hk⟩
    have hne : x.chars ≠ [] := getEntityAt_zero_chars_ne_nil x k hk
    constructor
    · rw [hyx]
      exact (hin x hx).1
    · intro _
      rw [hyx]
      show x.text ≠ ""
      intro habs
      apply hne
      apply List.length_eq_zero.mp
      rw [← (hin x hx).1, habs]
      rfl

theorem blockOk_resetBlockDepth (content : ContentState) (m : Nat)
    (hin : ∀ b ∈ content.blocks, blockOk b) :
    ∀ b ∈ (resetBlockDepth content m).blocks, blockOk b := by
  intro y hy
  rcases resetBlockDepth_mem content m y hy with hyo | ⟨x, hx, hyx⟩
  · exact hin y hyo
  · rcases hin x hx with ⟨h1, h2⟩
    rw [hyx]
    exact ⟨h1, h2⟩

theorem blockOk_resetBlockType (content : ContentState) (en : List String)
    (hin : ∀ b ∈ content.blocks, blockOk b) :
    ∀ b ∈ (resetBlockType content en).blocks, blockOk b := by
  intro y hy
  rcases resetBlockType_mem content en y hy with hyo | ⟨x, hx, hyx⟩
  · exact hin y hyo
  · constructor
    · rw [hyx]
      exact (hin x hx).1
    · rw [hyx]
      intro hat
      exact absurd hat (show UNSTYLED ≠ ATOMIC by decide)

theorem blockOk_filterInlineStyle (content : ContentState) (s : List String)
    (hin : ∀ b ∈ content.blocks, blockOk b) :
    ∀ b ∈ (filterInlineStyle content s).blocks, blockOk b := by
  intro y hy
  rcases filterInlineStyle_mem content s y hy with ⟨x, hx, _, hty, htx, _, hcl⟩
  constructor
  · rw [htx, hcl]
    exact (hin x hx).1
  · rw [hty, htx]
    exact (hin x hx).2

theorem blockOk_resetAtomicBlocks (content : ContentState) (en : List String)
    (out : ContentState) (h : resetAtomicBlocks content en = some out)
    (hin : ∀ b ∈ content.blocks, blockOk b) :
    ∀ b ∈ out.blocks, blockOk b := by
  intro y hy
  rcases resetAtomicBlocks_mem content en out h y hy with hyo | hyn | hyr
  · exact hin y hyo
  · rcases hyn with ⟨x, hx, hpx, hyx⟩
    rw [hyx]
    exact atomicNormalise_ok x hpx (hin x hx)
  · rcases hyr with ⟨x1, hyx1, hx1⟩
    have hok1 : x1.text.length = x1.chars.length := by
      rcases hx1 with hx1o | ⟨x, hx, hpx, hx1x⟩
      · exact (hin x1 hx1o).1
      · rw [hx1x]
        exact (atomicNormalise_ok x hpx (hin x hx)).1
    constructor
    · rw [hyx1]
      exact hok1
    · rw [hyx1]
      intro hat
      exact absurd hat (show UNSTYLED ≠ ATOMIC by decide)

theorem blockOk_aligned_filterEntityType (content : ContentState)
    (en : List String) (out : ContentState)
    (h : filterEntityType content en = some out)
    (hin : ∀ b ∈ content.blocks, blockOk b) :
    ∀ b ∈ out.blocks, b.text.length = b.chars.length := by
  intro y hy
  rcases filterEntityType_mem content en out h y hy with ⟨x, hx, hxy⟩
  rcases filterEntityTypeBlock_fields content en x y hxy with
    ⟨_, _, htx, _, hcl⟩
  rw [htx, hcl]
  exact (hin x hx).1

/-- C3 counterexample: on an input containing an atomic block with empty text
(and an empty, hence aligned, character list), `resetAtomicBlocks` produces a
block whose text has length 1 but whose character-metadata list has length 0,
so the alignment invariant does not survive this pass as claimed. -/
theorem resetAtomicBlocks_alignment_cex :
    (resetAtomicBlocks exC3doc []).map
        (fun c => c.blocks.map (fun b => (b.text.length, b.chars.length))) =
      some [(1, 0)] ∧ (1 : Nat) ≠ 0 := by
  constructor
  · rfl
  · decide

/-- C3 (amended): for every input document all of whose blocks are aligned
(`len(text) == len(characterMetadata)`) and whose atomic blocks have
non-empty text, every block in the output of the full pipeline is aligned;
the unamended claim fails because `resetAtomicBlocks` sets an atomic block's
text to the one-character placeholder while `slice(0,1)` of an empty
character list is empty. -/
theorem filterEditorState_alignment (content : ContentState)
    (m : Nat) (hr : Bool) (bt is et : List String) (out : ContentState)
    (hpre : ∀ b ∈ content.blocks, blockOk b)
    (hout : filterEditorState content m hr bt is et = some out) :
    ∀ b ∈ out.blocks, b.text.length = b.chars.length := by
  unfold filterEditorState at hout
  rw [Option.bind_eq_some] at hout
  rcases hout with ⟨s1, hs1, hrest⟩
  rw [Option.bind_eq_some] at hrest
  rcases hrest with ⟨s5, hs5, hs6⟩
  have h1 := blockOk_preserveAtomicBlocks content _ s1 hs1 hpre
  have h2 := blockOk_resetBlockDepth s1 m h1
  have h3 := blockOk_resetBlockType (resetBlockDepth s1 m)
    (bt ++ [UNSTYLED, ATOMIC]) h2
  have h4 := blockOk_filterInlineStyle (resetBlockType (resetBlockDepth s1 m)
    (bt ++ [UNSTYLED, ATOMIC])) is h3
  have h5 := blockOk_resetAtomicBlocks _ _ s5 hs5 h4
  exact blockOk_aligned_filterEntityType s5 _ out hs6 h5

/-- C3 witness: the amended alignment theorem applied to a concrete one-block
document. -/
theorem filterEditorState_alignment_witness :
    ∃ out, filterEditorState exC3wdoc 1 false [] [] [] = some out ∧
      ∀ b ∈ out.blocks, b.text.length = b.chars.length := by
  refine ⟨exC3wdoc, rfl, ?_⟩
  apply filterEditorState_alignment exC3wdoc 1 false [] [] [] exC3wdoc
  · intro b hb
    rcases List.mem_singleton.mp hb with rfl
    exact ⟨rfl, fun h => absurd h (by decide)⟩
  · rfl

/-! ## Helper lemmas: positional behaviour of `resetAtomicBlocks` -/

theorem resetAtomicBlocksMid_keys (blockMap : List Block) :
    (resetAtomicBlocksMid blockMap).map Block.key =
      blockMap.map Block.key := by
  unfold resetAtomicBlocksMid
  by_cases he : (resetAtomicBlocksNormalised blockMap).isEmpty
  · rw [if_pos he]
  · rw [if_neg he]
    exact mergeBlocks_map_key _ _

theorem getEntityAt_atomicNormalise (x : Block) :
    getEntityAt (atomicNormalise x) 0 = getEntityAt x 0 := by
  unfold getEntityAt atomicNormalise
  cases x.chars with
  | nil => rfl
  | cons c t => rfl

theorem resetAtomicBlocksMid_getElem? (blockMap : List Block)
    (hnd : (blockMap.map Block.key).Nodup) (i : Nat) (x : Block)
    (hx : blockMap.get? i = some x) :
    (resetAtomicBlocksMid blockMap).get? i =
      some (if atomicNormPred x then atomicNormalise x else x) := by
  unfold resetAtomicBlocksMid
  by_cases he : (resetAtomicBlocksNormalised blockMap).isEmpty
  · rw [if_pos he]
    have hnil : blockMap.filter atomicNormPred = [] :=
      List.map_eq_nil_iff.mp (List.isEmpty_iff.mp he)
    have hpx : ¬ atomicNormPred x := by
      have := List.filter_eq_nil_iff.mp hnil x (List.get?_mem hx)
      simpa using this
    rw [if_neg hpx]
    exact hx
  · rw [if_neg he]
    rw [mergeBlocks_getElem? blockMap (resetAtomicBlocksNormalised blockMap) i]
    rw [hx]
    unfold resetAtomicBlocksNormalised
    rw [Option.map_some']
    rw [find?_key_filter_map blockMap atomicNormPred atomicNormalise
      (fun b => rfl) hnd x (List.get?_mem hx)]
    by_cases hpx : atomicNormPred x
    · rw [if_pos hpx, if_pos hpx]
    · rw [if_neg hpx, if_neg hpx]

/-- C1 (amended): after shape normalization, an atomic block whose character
at offset 0 carries an annotation reference with a type not in
`enabledTypes` is demoted to `unstyled`; an atomic block whose character at
offset 0 carries no annotation reference keeps its `atomic` type (shape
normalization changes neither the block's type nor its offset-0 entity, so
the conditions are stated on the input block). -/
theorem resetAtomicBlocks_demotion (content : ContentState)
    (enabled : List String) (out : ContentState) (i : Nat) (x : Block)
    (hnd : (content.blocks.map Block.key).Nodup)
    (hout : resetAtomicBlocks content enabled = some out)
    (hx : content.blocks.get? i = some x)
    (hatomic : x.type = ATOMIC) :
    (getEntityAt x 0 = none →
      ∃ y, out.blocks.get? i = some y ∧ y.type = ATOMIC) ∧
    (∀ k e, getEntityAt x 0 = some k → lookupEntity content k = some e →
      enabled.contains e.etype = false →
      ∃ y, out.blocks.get? i = some y ∧ y.type = UNSTYLED) := by
  unfold resetAtomicBlocks at hout
  rw [Option.map_eq_some'] at hout
  rcases hout with ⟨resetBlocks, hcr, hout2⟩
  have hob : out.blocks =
      mergeBlocks content.blocks
        (if resetBlocks.isEmpty then resetAtomicBlocksMid content.blocks
         else mergeBlocks content.blocks resetBlocks) := by
    rw [← hout2]
  have hmid : (resetAtomicBlocksMid content.blocks).get? i =
      some (if atomicNormPred x then atomicNormalise x else x) :=
    resetAtomicBlocksMid_getElem? content.blocks hnd i x hx
  have hmtype : (if atomicNormPred x then atomicNormalise x else x).type =
      ATOMIC := by
    by_cases hpx : atomicNormPred x
    · rw [if_pos hpx]
      exact hatomic
    · rw [if_neg hpx]
      exact hatomic
  have hmkey : (if atomicNormPred x then atomicNormalise x else x).key =
      x.key := by
    by_cases hpx : atomicNormPred x
    · rw [if_pos hpx]
      rfl
    · rw [if_neg hpx]
  have hment : getEntityAt (if atomicNormPred x then atomicNormalise x
      else x) 0 = getEntityAt x 0 := by
    by_cases hpx : atomicNormPred x
    · rw [if_pos hpx]
      exact getEntityAt_atomicNormalise x
    · rw [if_neg hpx]
  have hmidkeys : ((resetAtomicBlocksMid content.blocks).map
      Block.key).Nodup := by
    rw [resetAtomicBlocksMid_keys]
    exact hnd
  have hmmem : (if atomicNormPred x then atomicNormalise x else x) ∈
      resetAtomicBlocksMid content.blocks := List.get?_mem hmid
  have hml : (if atomicNormPred x then atomicNormalise x else x) ∈
      (resetAtomicBlocksMid content.blocks).filter
        (fun b => b.type == ATOMIC) := by
    apply List.mem_filter.mpr
    refine ⟨hmmem, ?_⟩
    rw [hmtype]
    exact beq_self_eq_true ATOMIC
  have hlkeys : ((((resetAtomicBlocksMid content.blocks).filter
      (fun b => b.type == ATOMIC))).map Block.key).Nodup :=
    List.Nodup.sublist
      (List.Sublist.map Block.key (List.filter_sublist _)) hmidkeys
  constructor
  · intro hE
    have hsrp : shouldResetPred content enabled
        (if atomicNormPred x then atomicNormalise x else x) = some false := by
      unfold shouldResetPred
      rw [hment, hE]
    have hfind : resetBlocks.find? (fun c => c.key == x.key) = none := by
      apply find?_key_eq_none
      intro y hy
      rcases collectReset_mem content enabled _ resetBlocks hcr y hy with
        ⟨x1, hx1, hpx1, hyx1⟩
      intro hk
      have hx1k : x1.key =
          (if atomicNormPred x then atomicNormalise x else x).key := by
        rw [hmkey]
        rw [hyx1] at hk
        exact hk
      have hx1m : x1 = (if atomicNormPred x then atomicNormalise x else x) :=
        key_eq_of_nodup _ hlkeys x1 _ hx1 hml hx1k
      rw [hx1m, hsrp] at hpx1
      simp at hpx1
    by_cases hre : resetBlocks.isEmpty
    · refine ⟨(if atomicNormPred x then atomicNormalise x else x), ?_, hmtype⟩
      rw [hob, if_pos hre]
      rw [mergeBlocks_getElem? content.blocks
        (resetAtomicBlocksMid content.blocks) i, hx, Option.map_some']
      have hfm : (resetAtomicBlocksMid content.blocks).find?
          (fun c => c.key == x.key) =
          some (if atomicNormPred x then atomicNormalise x else x) := by
        have h1 := find?_key_of_getElem? _ hmidkeys i _ hmid
        simp only [hmkey] at h1
        exact h1
      rw [hfm]
    · refine ⟨x, ?_, hatomic⟩
      rw [hob, if_neg hre]
      rw [mergeBlocks_getElem? content.blocks
        (mergeBlocks content.blocks resetBlocks) i, hx, Option.map_some']
      have hb2keys : ((mergeBlocks content.blocks resetBlocks).map
          Block.key).Nodup := by
        rw [mergeBlocks_map_key]
        exact hnd
      have hb2get : (mergeBlocks content.blocks resetBlocks).get? i =
          some x := by
        rw [mergeBlocks_getElem? content.blocks resetBlocks i, hx,
          Option.map_some', hfind]
      have hfb2 : (mergeBlocks content.blocks resetBlocks).find?
          (fun c => c.key == x.key) = some x :=
        find?_key_of_getElem? _ hb2keys i x hb2get
      rw [hfb2]
  · intro k e hk he hcontains
    have hsrp : shouldResetPred content enabled
        (if atomicNormPred x then atomicNormalise x else x) = some true := by
      unfold shouldResetPred
      rw [hment, hk]
      show (lookupEntity content k).map
        (fun e2 => !(enabled.contains e2.etype)) = some true
      rw [he, Option.map_some', hcontains]
      rfl
    have hzmem : ({ (if atomicNormPred x then atomicNormalise x else x) with
        type := UNSTYLED } : Block) ∈ resetBlocks :=
      collectReset_mem_of content enabled _ resetBlocks hcr _ hml hsrp
    have hre : ¬ resetBlocks.isEmpty := by
      intro habs
      rw [List.isEmpty_iff.mp habs] at hzmem
      cases hzmem
    have hfr : resetBlocks.find? (fun c => c.key == x.key) =
        some { (if atomicNormPred x then atomicNormalise x else x) with
          type := UNSTYLED } := by
      apply find?_key_of_unique
      · exact hzmem
      · exact hmkey
      · intro y hy hyk
        rcases collectReset_mem content enabled _ resetBlocks hcr y hy with
          ⟨x1, hx1, hpx1, hyx1⟩
        have hx1k : x1.key =
            (if atomicNormPred x then atomicNormalise x else x).key := by
          rw [hmkey]
          rw [hyx1] at hyk
          exact hyk
        have hx1m : x1 =
            (if atomicNormPred x then atomicNormalise x else x) :=
          key_eq_of_nodup _ hlkeys x1 _ hx1 hml hx1k
        rw [hyx1, hx1m]
    refine ⟨{ (if atomicNormPred x then atomicNormalise x else x) with
      type := UNSTYLED }, ?_, rfl⟩
    rw [hob, if_neg hre]
    rw [mergeBlocks_getElem? content.blocks
      (mergeBlocks content.blocks resetBlocks) i, hx, Option.map_some']
    have hb2keys : ((mergeBlocks content.blocks resetBlocks).map
        Block.key).Nodup := by
      rw [mergeBlocks_map_key]
      exact hnd
    have hb2get : (mergeBlocks content.blocks resetBlocks).get? i =
        some { (if atomicNormPred x then atomicNormalise x else x) with
          type := UNSTYLED } := by
      rw [mergeBlocks_getElem? content.blocks resetBlocks i, hx,
        Option.map_some', hfr]
    have hfb2 := find?_key_of_getElem? _ hb2keys i _ hb2get
    simp only [hmkey] at hfb2
    rw [hfb2]
    simp only [hmkey]

/-- C1 counterexample: an atomic block with no annotation reference at
offset 0 is not demoted — on `exC1doc` with no enabled annotation types,
`resetAtomicBlocks` leaves the block's type `atomic`, where the claim says it
becomes `unstyled`. -/
theorem resetAtomicBlocks_no_entity_cex :
    (resetAtomicBlocks exC1doc []).map (fun c => c.blocks.map Block.type) =
      some [ATOMIC] ∧ ATOMIC ≠ UNSTYLED := by
  constructor
  · rfl
  · decide

/-- C1 witness: the amended demotion theorem applied to a concrete document
whose single atomic block references a disabled entity type. -/
theorem resetAtomicBlocks_demotion_witness :
    ∃ y, exC1wout.blocks.get? 0 = some y ∧ y.type = UNSTYLED := by
  have h := resetAtomicBlocks_demotion exC1wdoc [] exC1wout 0
    { key := "a", type := "atomic", depth := 0, text := " ",
      chars := [plainChar (some "1")] }
    (by decide) rfl rfl rfl
  exact h.2 "1" { etype := "EMBED", data := [] } rfl rfl rfl

/-- C2: on `exC2doc` — one atomic block needing shape normalization, one
atomic block being demoted in the same `resetAtomicBlocks` pass — the full
pipeline outputs an atomic block whose text is `"ab"` of length 2, violating
the atomic shape invariant: the pass merges `resetBlocks` into the original
`blockMap` rather than into the previously normalized `blocks`. -/
theorem filterEditorState_atomic_shape_cex :
    (filterEditorState exC2doc 1 false [] [] []).map
        (fun c => c.blocks.map (fun b => (b.type, b.text))) =
      some [(ATOMIC, "ab"), (UNSTYLED, " ")] ∧
      ("ab" : String).length ≠ 1 := by
  constructor
  · rfl
  · decide

/-- C6: the full pipeline is not idempotent — applying it twice to `exC6doc`
normalises the first atomic block's text to the placeholder, which the first
application had lost when it merged `resetBlocks` into the original
`blockMap`. -/
theorem filterEditorState_not_idempotent :
    (filterEditorState exC6doc 1 false [] [] []).bind
        (fun c => filterEditorState c 1 false [] [] []) ≠
      filterEditorState exC6doc 1 false [] [] [] := by
  decide

/-- C4: `filterEntityType` clears a character's entity reference whenever the
referenced entity's type is the image type and the enclosing block's type is
not `atomic`, regardless of whether the image type is enabled; the
character's styles and the block's type and text are unchanged. -/
theorem filterEntityType_image_placement (content : ContentState)
    (enabledTypes : List String) (out : ContentState) (i j : Nat)
    (b : Block) (c : CharMeta) (k : String) (e : Entity)
    (hout : filterEntityType content enabledTypes = some out)
    (hb : content.blocks.get? i = some b)
    (hc : b.chars.get? j = some c)
    (hk : c.entity = some k)
    (he : lookupEntity content k = some e)
    (htype : e.etype = IMAGE)
    (hblock : b.type ≠ ATOMIC) :
    ∃ b2, out.blocks.get? i = some b2 ∧ b2.type = b.type ∧ b2.text = b.text ∧
      b2.chars.get? j = some { styles := c.styles, entity := none } := by
  unfold filterEntityType at hout
  rw [Option.map_eq_some'] at hout
  rcases hout with ⟨blocks, hbl, hout2⟩
  rcases mapMOpt_getElem? _ _ _ hbl i b hb with ⟨b2, hfb, hget⟩
  unfold filterEntityTypeBlock at hfb
  rw [Option.map_eq_some'] at hfb
  rcases hfb with ⟨chars, hch, hb2⟩
  rcases mapMOpt_getElem? _ _ _ hch j c hc with ⟨c2, hfc, hc2get⟩
  have hchar : filterEntityTypeChar content enabledTypes b.type c =
      some { styles := c.styles, entity := none } := by
    simp only [filterEntityTypeChar, hk, he, Option.map_some']
    have hcond : (e.etype == IMAGE && b.type != ATOMIC) = true := by
      rw [htype]
      simp only [beq_self_eq_true, Bool.true_and]
      exact bne_iff_ne.mpr hblock
    rw [hcond, Bool.or_true, if_pos rfl]
  rw [hchar] at hfc
  have hc2 : c2 = { styles := c.styles, entity := none } :=
    (Option.some.inj hfc).symm
  refine ⟨b2, ?_, ?_, ?_, ?_⟩
  · rw [← hout2]
    exact hget
  · rw [← hb2]
  · rw [← hb2]
  · rw [← hb2]
    rw [← hc2]
    exact hc2get

/-- C4 witness: the image-placement theorem applied to a concrete non-atomic
block whose single character references an `IMAGE` entity, with the image
type enabled. -/
theorem filterEntityType_image_placement_witness :
    ∃ b2, exC4out.blocks.get? 0 = some b2 ∧ b2.type = "unstyled" ∧
      b2.text = "m" ∧
      b2.chars.get? 0 = some { styles := ["BOLD"], entity := none } := by
  have h := filterEntityType_image_placement exC4doc ["IMAGE"] exC4out 0 0
    { key := "a", type := "unstyled", depth := 0, text := "m",
      chars := [{ styles := ["BOLD"], entity := some "1" }] }
    { styles := ["BOLD"], entity := some "1" }
    "1" { etype := "IMAGE", data := [] }
    rfl rfl rfl rfl rfl rfl (by decide)
  exact h

/-- C5: `applyContentWithSelection` returns the selection unchanged when it
is not collapsed or its anchor block key resolves in the new content;
otherwise it scans the new content's block keys in reverse for the first key
whose immediate successor differs between old and new content and returns a
collapsed selection on that key at that block's text length, or the original
selection when no such key exists. -/
theorem applyContentWithSelection_spec (sel : SelectionState)
    (content nextContent : ContentState) :
    ((isCollapsed sel = false ∨
        (getBlockForKey nextContent sel.anchorKey).isSome = true) →
      applyContentWithSelection sel content nextContent = sel) ∧
    (isCollapsed sel = true →
      getBlockForKey nextContent sel.anchorKey = none →
      (∀ k b, (nextContent.blocks.map Block.key).reverse.find?
          (fun k2 => getKeyAfter content k2 != getKeyAfter nextContent k2) =
            some k →
        getBlockForKey nextContent k = some b →
        applyContentWithSelection sel content nextContent =
          { anchorKey := k, anchorOffset := b.text.length,
            focusKey := k, focusOffset := b.text.length }) ∧
      ((nextContent.blocks.map Block.key).reverse.find?
          (fun k2 => getKeyAfter content k2 != getKeyAfter nextContent k2) =
            none →
        applyContentWithSelection sel content nextContent = sel)) := by
  unfold applyContentWithSelection
  constructor
  · intro h
    have hcond : (!(isCollapsed sel) ||
        (getBlockForKey nextContent sel.anchorKey).isSome) = true := by
      rcases h with h1 | h2
      · rw [h1]
        rfl
      · rw [h2, Bool.or_true]
    rw [if_pos hcond]
  · intro hcol hnone
    have hcond : (!(isCollapsed sel) ||
        (getBlockForKey nextContent sel.anchorKey).isSome) = false := by
      rw [hcol, hnone]
      rfl
    simp only [hcond, Bool.false_eq_true, if_false]
    constructor
    · intro k b hfind hblock
      simp only [hfind, hblock]
    · intro hfind
      simp only [hfind]

/-- C5 witness: scenario E — three-block document `[A,B,C]`, collapsed
selection on removed block `B`, reconciled to the end of block `A`'s
two-character text. -/
theorem applyContentWithSelection_spec_witness :
    applyContentWithSelection exC5sel exC5old exC5new =
      { anchorKey := "a", anchorOffset := 2, focusKey := "a",
        focusOffset := 2 } := by
  have h := (applyContentWithSelection_spec exC5sel exC5old exC5new).2 rfl rfl
  exact h.1 "a" (exC5block "a" "aa") rfl rfl

/-! ## Helper lemmas: the referenced-entity-key collection -/

theorem insertEntityKey_subset (acc : List String) (c : CharMeta)
    (k : String) (hk : k ∈ acc) : k ∈ insertEntityKey acc c := by
  unfold insertEntityKey
  cases c.entity with
  | none => exact hk
  | some k0 =>
    show k ∈ (if acc.contains k0 then acc else acc ++ [k0])
    by_cases hc : acc.contains k0
    · rw [if_pos hc]
      exact hk
    · rw [if_neg hc]
      exact List.mem_append_left _ hk

theorem foldl_insertEntityKey_subset (chars : List CharMeta) :
    ∀ (acc : List String) (k : String), k ∈ acc →
      k ∈ chars.foldl insertEntityKey acc := by
  induction chars with
  | nil =>
    intro acc k hk
    exact hk
  | cons c rest ih =>
    intro acc k hk
    rw [List.foldl_cons]
    exact ih _ k (insertEntityKey_subset acc c k hk)

theorem foldl_insertEntityKey_mem (chars : List CharMeta) :
    ∀ (acc : List String) (c : CharMeta), c ∈ chars → ∀ (k : String),
      c.entity = some k → k ∈ chars.foldl insertEntityKey acc := by
  induction chars with
  | nil =>
    intro acc c hc
    cases hc
  | cons c0 rest ih =>
    intro acc c hc k hk
    rw [List.foldl_cons]
    rcases List.mem_cons.mp hc with hc0 | hcr
    · apply foldl_insertEntityKey_subset
      rw [← hc0]
      unfold insertEntityKey
      rw [hk]
      show k ∈ (if acc.contains k then acc else acc ++ [k])
      by_cases hmem : acc.contains k
      · rw [if_pos hmem]
        exact List.elem_iff.mp hmem
      · rw [if_neg hmem]
        exact List.mem_append_right _ (List.mem_singleton.mpr rfl)
    · exact ih _ c hcr k hk

theorem foldl_insertEntityKey_src (chars : List CharMeta) :
    ∀ (acc : List String) (k : String),
      k ∈ chars.foldl insertEntityKey acc →
      k ∈ acc ∨ ∃ c ∈ chars, c.entity = some k := by
  induction chars with
  | nil =>
    intro acc k hk
    exact Or.inl hk
  | cons c0 rest ih =>
    intro acc k hk
    rw [List.foldl_cons] at hk
    rcases ih (insertEntityKey acc c0) k hk with h1 | h2
    · unfold insertEntityKey at h1
      cases hE : c0.entity with
      | none =>
        rw [hE] at h1
        exact Or.inl h1
      | some k0 =>
        rw [hE] at h1
        have h1b : k ∈ (if acc.contains k0 then acc else acc ++ [k0]) := h1
        by_cases hmem : acc.contains k0
        · rw [if_pos hmem] at h1b
          exact Or.inl h1b
        · rw [if_neg hmem] at h1b
          rcases List.mem_append.mp h1b with ha | hs
          · exact Or.inl ha
          · refine Or.inr ⟨c0, List.mem_cons_self c0 rest, ?_⟩
            rw [hE, List.mem_singleton.mp hs]
    · rcases h2 with ⟨c, hc, hck⟩
      exact Or.inr ⟨c, List.mem_cons_of_mem c0 hc, hck⟩

theorem insertEntityKey_nodup (acc : List String) (c : CharMeta)
    (h : acc.Nodup) : (insertEntityKey acc c).Nodup := by
  unfold insertEntityKey
  cases c.entity with
  | none => exact h
  | some k0 =>
    show (if acc.contains k0 then acc else acc ++ [k0]).Nodup
    by_cases hmem : acc.contains k0
    · rw [if_pos hmem]
      exact h
    · rw [if_neg hmem]
      have hn : k0 ∉ acc := by
        intro habs
        exact hmem (List.elem_iff.mpr habs)
      simp [List.nodup_append, h, hn]

theorem foldl_insertEntityKey_nodup (chars : List CharMeta) :
    ∀ (acc : List String), acc.Nodup →
      (chars.foldl insertEntityKey acc).Nodup := by
  induction chars with
  | nil =>
    intro acc h
    exact h
  | cons c0 rest ih =>
    intro acc h
    rw [List.foldl_cons]
    exact ih _ (insertEntityKey_nodup acc c0 h)

theorem blocks_foldl_subset (bs : List Block) :
    ∀ (acc : List String) (k : String), k ∈ acc →
      k ∈ bs.foldl (fun a b2 => b2.chars.foldl insertEntityKey a) acc := by
  induction bs with
  | nil =>
    intro acc k hk
    exact hk
  | cons b0 rest ih =>
    intro acc k hk
    rw [List.foldl_cons]
    exact ih _ k (foldl_insertEntityKey_subset b0.chars acc k hk)

theorem referencedEntityKeys_mem (content : ContentState) (b : Block)
    (hb : b ∈ content.blocks) (c : CharMeta) (hc : c ∈ b.chars) (k : String)
    (hk : c.entity = some k) : k ∈ referencedEntityKeys content := by
  unfold referencedEntityKeys
  have main : ∀ (bs : List Block) (acc : List String), b ∈ bs →
      k ∈ bs.foldl (fun a b2 => b2.chars.foldl insertEntityKey a) acc := by
    intro bs
    induction bs with
    | nil =>
      intro acc h
      cases h
    | cons b0 rest ih =>
      intro acc hmem
      rw [List.foldl_cons]
      rcases List.mem_cons.mp hmem with hb0 | hbr
      · apply blocks_foldl_subset
        rw [← hb0]
        exact foldl_insertEntityKey_mem b.chars acc c hc k hk
      · exact ih _ hbr
  exact main content.blocks [] hb

theorem referencedEntityKeys_src (content : ContentState) (k : String)
    (hk : k ∈ referencedEntityKeys content) :
    ∃ b ∈ content.blocks, ∃ c ∈ b.chars, c.entity = some k := by
  unfold referencedEntityKeys at hk
  have main : ∀ (bs : List Block) (acc : List String),
      k ∈ bs.foldl (fun a b2 => b2.chars.foldl insertEntityKey a) acc →
      k ∈ acc ∨ ∃ b ∈ bs, ∃ c ∈ b.chars, c.entity = some k := by
    intro bs
    induction bs with
    | nil =>
      intro acc h
      exact Or.inl h
    | cons b0 rest ih =>
      intro acc h
      rw [List.foldl_cons] at h
      rcases ih _ h with h1 | h2
      · rcases foldl_insertEntityKey_src b0.chars acc k h1 with ha | hcs
        · exact Or.inl ha
        · rcases hcs with ⟨c, hcm, hck⟩
          exact Or.inr ⟨b0, List.mem_cons_self b0 rest, c, hcm, hck⟩
      · rcases h2 with ⟨b, hbm, c, hcm, hck⟩
        exact Or.inr ⟨b, List.mem_cons_of_mem b0 hbm, c, hcm, hck⟩
  rcases main content.blocks [] hk with h1 | h2
  · cases h1
  · exact h2

theorem referencedEntityKeys_nodup (content : ContentState) :
    (referencedEntityKeys content).Nodup := by
  unfold referencedEntityKeys
  have main : ∀ (bs : List Block) (acc : List String), acc.Nodup →
      (bs.foldl (fun a b2 => b2.chars.foldl insertEntityKey a) acc).Nodup := by
    intro bs
    induction bs with
    | nil =>
      intro acc h
      exact h
    | cons b0 rest ih =>
      intro acc h
      rw [List.foldl_cons]
      exact ih _ (foldl_insertEntityKey_nodup b0.chars acc h)
  exact main content.blocks [] List.nodup_nil

/-! ## Helper lemmas: the entity registry under `replaceEntityData` -/

theorem find?_fst_map_replace (l : List (String × Entity)) (k k2 : String)
    (d : List (String × String)) :
    (l.map (fun p => if p.1 == k then (p.1, { p.2 with data := d })
        else p)).find? (fun p => p.1 == k2) =
      (l.find? (fun p => p.1 == k2)).map
        (fun p => if p.1 == k then (p.1, { p.2 with data := d }) else p) := by
  induction l with
  | nil => rfl
  | cons p0 rest ih =>
    have hfst : (if p0.1 == k then (p0.1, { p0.2 with data := d })
        else p0).1 = p0.1 := by
      by_cases hp : p0.1 == k
      · rw [if_pos hp]
      · rw [if_neg hp]
    rw [List.map_cons]
    by_cases hk2 : p0.1 == k2
    · rw [List.find?_cons_of_pos rest hk2]
      rw [List.find?_cons_of_pos _ (by rw [hfst]; exact hk2)]
      rw [Option.map_some']
    · rw [List.find?_cons_of_neg rest hk2]
      rw [List.find?_cons_of_neg _ (by rw [hfst]; exact hk2)]
      exact ih

theorem lookupEntity_replace_ne (c : ContentState) (k : String)
    (d : List (String × String)) (k2 : String) (hne : k2 ≠ k) :
    lookupEntity (replaceEntityData c k d) k2 = lookupEntity c k2 := by
  unfold lookupEntity replaceEntityData
  rw [find?_fst_map_replace]
  cases hf : c.entityMap.find? (fun p => p.1 == k2) with
  | none => rfl
  | some p =>
    have hp : (p.1 == k2) = true := by simpa using List.find?_some hf
    have hpk : (p.1 == k) = false := by
      rw [eq_of_beq hp]
      exact beq_eq_false_iff_ne.mpr hne
    rw [Option.map_some', Option.map_some', hpk]
    rw [if_neg Bool.false_ne_true]
    rfl

theorem lookupEntity_replace_eq (c : ContentState) (k : String)
    (d : List (String × String)) (e : Entity)
    (he : lookupEntity c k = some e) :
    lookupEntity (replaceEntityData c k d) k = some { e with data := d } := by
  unfold lookupEntity replaceEntityData
  unfold lookupEntity at he
  rw [find?_fst_map_replace]
  cases hf : c.entityMap.find? (fun p => p.1 == k) with
  | none =>
    rw [hf] at he
    cases he
  | some p =>
    rw [hf] at he
    rw [Option.map_some'] at he
    have hp : (p.1 == k) = true := by simpa using List.find?_some hf
    rw [Option.map_some', Option.map_some', hp]
    rw [if_pos rfl]
    rw [Option.some.inj he]

/-! ## Helper lemmas: the `filterEntityAttributes` fold -/

theorem filterEntityAttributes_fold_untouched (cfg : List EntityConfig)
    (l : List (String × Entity)) :
    ∀ (c : ContentState) (out : ContentState) (k : String),
      foldlMOpt (fun c2 p =>
          (filterEntityData cfg p.2).map (fun newData =>
            replaceEntityData c2 p.1 newData)) c l = some out →
      k ∉ l.map Prod.fst → lookupEntity out k = lookupEntity c k := by
  induction l with
  | nil =>
    intro c out k hfold hk
    cases hfold
    rfl
  | cons p0 rest ih =>
    intro c out k hfold hk
    rw [List.map_cons] at hk
    have hk0 : k ≠ p0.1 := fun habs => hk (habs ▸ List.mem_cons_self _ _)
    have hkr : k ∉ rest.map Prod.fst :=
      fun habs => hk (List.mem_cons_of_mem _ habs)
    unfold foldlMOpt at hfold
    cases hd : filterEntityData cfg p0.2 with
    | none =>
      rw [hd] at hfold
      cases hfold
    | some d0 =>
      rw [hd] at hfold
      rw [Option.map_some'] at hfold
      rw [ih _ out k hfold hkr]
      exact lookupEntity_replace_ne c p0.1 d0 k hk0

theorem filterEntityAttributes_fold_lookup (cfg : List EntityConfig)
    (l : List (String × Entity)) :
    ∀ (c : ContentState) (out : ContentState) (k : String) (e : Entity),
      (l.map Prod.fst).Nodup →
      foldlMOpt (fun c2 p =>
          (filterEntityData cfg p.2).map (fun newData =>
            replaceEntityData c2 p.1 newData)) c l = some out →
      (k, e) ∈ l → lookupEntity c k = some e →
      ∃ d, filterEntityData cfg e = some d ∧
        lookupEntity out k = some { e with data := d } := by
  induction l with
  | nil =>
    intro c out k e _ _ hmem
    cases hmem
  | cons p0 rest ih =>
    intro c out k e hnd hfold hmem hcl
    rw [List.map_cons, List.nodup_cons] at hnd
    unfold foldlMOpt at hfold
    cases hd : filterEntityData cfg p0.2 with
    | none =>
      rw [hd] at hfold
      cases hfold
    | some d0 =>
      rw [hd] at hfold
      rw [Option.map_some'] at hfold
      rcases List.mem_cons.mp hmem with hm0 | hmr
      · have hk0 : k = p0.1 := by rw [← hm0]
        have he0 : e = p0.2 := by rw [← hm0]
        have hc1 : lookupEntity (replaceEntityData c p0.1 d0) k =
            some { e with data := d0 } := by
          rw [hk0]
          rw [hk0] at hcl
          exact lookupEntity_replace_eq c p0.1 d0 e hcl
        have hnotin : k ∉ rest.map Prod.fst := by
          rw [hk0]
          exact hnd.1
        refine ⟨d0, ?_, ?_⟩
        · rw [he0]
          exact hd
        · rw [filterEntityAttributes_fold_untouched cfg rest _ out k hfold
            hnotin]
          exact hc1
      · have hk0 : k ≠ p0.1 := by
          intro habs
          apply hnd.1
          rw [← habs]
          exact List.mem_map_of_mem Prod.fst hmr
        have hc1 : lookupEntity (replaceEntityData c p0.1 d0) k = some e := by
          rw [lookupEntity_replace_ne c p0.1 d0 k hk0]
          exact hcl
        exact ih _ out k e hnd.2 hfold hmr hc1

/-! ## Helper lemmas: the collected entity list and data whitelisting -/

theorem entities_fst (content : ContentState) (keys : List String)
    (entities : List (String × Entity))
    (h : mapMOpt (fun k => (lookupEntity content k).map (fun e => (k, e)))
      keys = some entities) : entities.map Prod.fst = keys := by
  have h2 := mapMOpt_map _ id Prod.fst keys entities h ?_
  · rw [h2, List.map_id]
  · intro k p hp
    rw [Option.map_eq_some'] at hp
    rcases hp with ⟨e, _, hpe⟩
    rw [← hpe]
    rfl

theorem entities_lookup (content : ContentState) (keys : List String)
    (entities : List (String × Entity))
    (h : mapMOpt (fun k => (lookupEntity content k).map (fun e => (k, e)))
      keys = some entities) (k : String) (e : Entity)
    (hmem : (k, e) ∈ entities) : lookupEntity content k = some e := by
  rcases mapMOpt_mem _ _ _ h (k, e) hmem with ⟨k2, _, hf⟩
  rw [Option.map_eq_some'] at hf
  rcases hf with ⟨e2, he2, hpe⟩
  have hk : k2 = k := congrArg Prod.fst hpe
  have he : e2 = e := congrArg Prod.snd hpe
  rw [← hk, ← he]
  exact he2

theorem entities_mem_of (content : ContentState) (keys : List String)
    (entities : List (String × Entity))
    (h : mapMOpt (fun k => (lookupEntity content k).map (fun e => (k, e)))
      keys = some entities) (k : String) (hkmem : k ∈ keys) (e : Entity)
    (hlk : lookupEntity content k = some e) : (k, e) ∈ entities := by
  apply mapMOpt_mem_of _ _ _ h k hkmem
  rw [hlk]
  rfl

theorem lookupData_append_single (acc : List (String × String))
    (a attr v : String) :
    lookupData (acc ++ [(attr, v)]) a =
      (lookupData acc a).or (if a = attr then some v else none) := by
  unfold lookupData
  rw [List.find?_append]
  cases hf : acc.find? (fun p => p.1 == a) with
  | some p => rfl
  | none =>
    have h1 : Option.map (fun p => (p : String × String).2) none = none := rfl
    rw [h1, Option.none_or, Option.none_or]
    by_cases ha : a = attr
    · rw [if_pos ha]
      rw [List.find?_cons_of_pos _ (by simpa using ha.symm)]
      rfl
    · rw [if_neg ha]
      rw [List.find?_cons_of_neg _ (by simpa using fun h => ha h.symm)]
      rfl

theorem lookupData_filter_fold (data : List (String × String))
    (attrs : List String) :
    ∀ (acc : List (String × String)) (a : String),
      lookupData (attrs.foldl (fun attrs2 attr =>
          match lookupData data attr with
          | some v => attrs2 ++ [(attr, v)]
          | none => attrs2) acc) a =
        (lookupData acc a).or
          (if a ∈ attrs ∧ (lookupData data a).isSome = true
           then lookupData data a else none) := by
  induction attrs with
  | nil =>
    intro acc a
    rw [List.foldl_nil]
    rw [if_neg (fun hc => (List.not_mem_nil a) hc.1)]
    cases lookupData acc a <;> rfl
  | cons attr rest ih =>
    intro acc a
    rw [List.foldl_cons]
    cases hv : lookupData data attr with
    | some v =>
      simp only [hv]
      rw [ih (acc ++ [(attr, v)]) a, lookupData_append_single]
      cases h : lookupData acc a with
      | some w => rfl
      | none =>
        rw [Option.none_or, Option.none_or]
        by_cases ha : a = attr
        · rw [if_pos ha]
          have hda : lookupData data a = some v := by
            rw [ha]
            exact hv
          have hR : (if a ∈ attr :: rest ∧
              (lookupData data a).isSome = true
              then lookupData data a else none) = some v := by
            rw [if_pos ⟨by rw [ha]; exact List.mem_cons_self attr rest,
              by rw [hda]; rfl⟩]
            exact hda
          rw [hR]
          rfl
        · rw [if_neg ha, Option.none_or]
          by_cases hmem : a ∈ rest ∧ (lookupData data a).isSome = true
          · rw [if_pos hmem,
              if_pos ⟨List.mem_cons_of_mem attr hmem.1, hmem.2⟩]
          · rw [if_neg hmem, if_neg (fun hc =>
              hmem ⟨(List.mem_cons.mp hc.1).resolve_left ha, hc.2⟩)]
    | none =>
      simp only [hv]
      rw [ih acc a]
      cases h : lookupData acc a with
      | some w => rfl
      | none =>
        rw [Option.none_or, Option.none_or]
        by_cases ha : a = attr
        · have hda : lookupData data a = none := by
            rw [ha]
            exact hv
          have hns : ¬ ((lookupData data a).isSome = true) := by
            rw [hda]
            simp
          rw [if_neg (fun hc => hns hc.2), if_neg (fun hc => hns hc.2)]
        · by_cases hmem : a ∈ rest ∧ (lookupData data a).isSome = true
          · rw [if_pos hmem,
              if_pos ⟨List.mem_cons_of_mem attr hmem.1, hmem.2⟩]
          · rw [if_neg hmem, if_neg (fun hc =>
              hmem ⟨(List.mem_cons.mp hc.1).resolve_left ha, hc.2⟩)]

theorem filterEntityData_lookup (cfg : List EntityConfig) (e : Entity)
    (entry : EntityConfig)
    (hentry : cfg.find? (fun t => t.type == e.etype) = some entry)
    (d : List (String × String)) (hd : filterEntityData cfg e = some d)
    (a : String) :
    lookupData d a =
      if a ∈ entry.attributes ∧ (lookupData e.data a).isSome = true
      then lookupData e.data a else none := by
  unfold filterEntityData at hd
  rw [hentry, Option.map_some'] at hd
  rw [← Option.some.inj hd]
  rw [lookupData_filter_fold e.data entry.attributes [] a]
  have hnil : lookupData [] a = none := rfl
  rw [hnil, Option.none_or]

/-- C7: `filterEntityAttributes` fails fatally (returns `none`, modelling the
uncaught exception on the `.attributes` access) whenever some entity
referenced by at least one character has a type with no matching entry in the
configuration; when every referenced entity resolves and its type has an
entry, the pass succeeds. -/
theorem filterEntityAttributes_config_mismatch (content : ContentState)
    (cfg : List EntityConfig) :
    ((∃ b ∈ content.blocks, ∃ c ∈ b.chars, ∃ k e, c.entity = some k ∧
        lookupEntity content k = some e ∧
        cfg.find? (fun t => t.type == e.etype) = none) →
      filterEntityAttributes content cfg = none) ∧
    ((∀ b ∈ content.blocks, ∀ c ∈ b.chars, ∀ k, c.entity = some k →
        ∃ e, lookupEntity content k = some e ∧
          (cfg.find? (fun t => t.type == e.etype)).isSome = true) →
      ∃ out, filterEntityAttributes content cfg = some out) := by
  constructor
  · rintro ⟨b, hb, c, hc, k, e, hk, he, hfind⟩
    unfold filterEntityAttributes
    cases hm : mapMOpt (fun k2 => (lookupEntity content k2).map
        (fun e2 => (k2, e2))) (referencedEntityKeys content) with
    | none => rfl
    | some entities =>
      have hkmem : k ∈ referencedEntityKeys content :=
        referencedEntityKeys_mem content b hb c hc k hk
      have hpmem : (k, e) ∈ entities :=
        entities_mem_of content _ entities hm k hkmem e he
      have hstep : ∀ acc : ContentState,
          (filterEntityData cfg (k, e).2).map
            (fun newData => replaceEntityData acc (k, e).1 newData) =
            none := by
        intro acc
        have hfde : filterEntityData cfg e = none := by
          unfold filterEntityData
          rw [hfind]
          rfl
        show (filterEntityData cfg e).map _ = none
        rw [hfde]
        rfl
      exact foldlMOpt_none_of_mem _ content entities (k, e) hpmem hstep
  · intro hall
    have hm : (mapMOpt (fun k2 => (lookupEntity content k2).map
        (fun e2 => (k2, e2))) (referencedEntityKeys content)).isSome := by
      apply mapMOpt_isSome
      intro k2 hk2
      rcases referencedEntityKeys_src content k2 hk2 with ⟨b, hb, c, hc, hck⟩
      rcases hall b hb c hc k2 hck with ⟨e, he, _⟩
      rw [he]
      rfl
    rcases Option.isSome_iff_exists.mp hm with ⟨entities, hment⟩
    have hfold : (foldlMOpt (fun c2 p =>
        (filterEntityData cfg p.2).map
          (fun newData => replaceEntityData c2 p.1 newData))
        content entities).isSome := by
      apply foldlMOpt_isSome
      intro acc p hp
      obtain ⟨pk, pe⟩ := p
      have hlk : lookupEntity content pk = some pe :=
        entities_lookup content _ entities hment pk pe hp
      have hkmem : pk ∈ referencedEntityKeys content := by
        have := entities_fst content _ entities hment
        rw [← this]
        exact List.mem_map_of_mem Prod.fst hp
      rcases referencedEntityKeys_src content pk hkmem with ⟨b, hb, c, hc, hck⟩
      rcases hall b hb c hc pk hck with ⟨e3, he3, hfindsome⟩
      have he3e : e3 = pe := by
        rw [hlk] at he3
        exact (Option.some.inj he3).symm
      rcases Option.isSome_iff_exists.mp hfindsome with ⟨entry, hentry⟩
      rw [he3e] at hentry
      show ((filterEntityData cfg pe).map _).isSome
      unfold filterEntityData
      rw [hentry]
      rfl
    rcases Option.isSome_iff_exists.mp hfold with ⟨out, hout⟩
    refine ⟨out, ?_⟩
    unfold filterEntityAttributes
    rw [hment]
    exact hout

/-- C7 witness: the failure half applied to a concrete document referencing a
`LINK` entity with an empty configuration, and the success half applied to
the same document with a matching configuration. -/
theorem filterEntityAttributes_config_mismatch_witness :
    filterEntityAttributes exC7doc [] = none := by
  apply (filterEntityAttributes_config_mismatch exC7doc []).1
  refine ⟨{ key := "a", type := "unstyled", depth := 0, text := "x",
            chars := [plainChar (some "1")] }, by decide,
    plainChar (some "1"), by decide, "1",
    { etype := "LINK", data := [("url", "http://x")] }, rfl, rfl, rfl⟩

/-- C8: `filterEntityAttributes` replaces each referenced entity's data with
exactly the key-value pairs whose key is in the configured attributes list
for that entity's type and which are present in the source data; absent
attributes are not synthesized and attributes outside the list are dropped. -/
theorem filterEntityAttributes_whitelist (content : ContentState)
    (cfg : List EntityConfig) (out : ContentState) (k : String) (e : Entity)
    (entry : EntityConfig) (b : Block) (c : CharMeta)
    (hout : filterEntityAttributes content cfg = some out)
    (hb : b ∈ content.blocks) (hc : c ∈ b.chars) (hk : c.entity = some k)
    (he : lookupEntity content k = some e)
    (hentry : cfg.find? (fun t => t.type == e.etype) = some entry) :
    ∃ e2, lookupEntity out k = some e2 ∧ e2.etype = e.etype ∧
      ∀ a, lookupData e2.data a =
        if a ∈ entry.attributes ∧ (lookupData e.data a).isSome = true
        then lookupData e.data a else none := by
  unfold filterEntityAttributes at hout
  rw [Option.bind_eq_some] at hout
  rcases hout with ⟨entities, hment, hfold⟩
  have hkmem : k ∈ referencedEntityKeys content :=
    referencedEntityKeys_mem content b hb c hc k hk
  have hpmem : (k, e) ∈ entities :=
    entities_mem_of content _ entities hment k hkmem e he
  have hnd : (entities.map Prod.fst).Nodup := by
    rw [entities_fst content _ entities hment]
    exact referencedEntityKeys_nodup content
  rcases filterEntityAttributes_fold_lookup cfg entities content out k e hnd
    hfold hpmem he with ⟨d, hd, hlook⟩
  refine ⟨{ e with data := d }, hlook, rfl, ?_⟩
  intro a
  exact filterEntityData_lookup cfg e entry hentry d hd a

/-- C8 witness: scenario F — a `LINK` entity with `url` and `title` data and
a configuration whitelisting only `url`: the filtered data has `url` mapped
to its original value and no `title`. -/
theorem filterEntityAttributes_whitelist_witness :
    ∃ e2, lookupEntity exC8out "1" = some e2 ∧
      e2.etype = exC8entity.etype ∧
      ∀ a, lookupData e2.data a =
        if a ∈ exC8entry.attributes ∧
          (lookupData exC8entity.data a).isSome = true
        then lookupData exC8entity.data a else none := by
  exact filterEntityAttributes_whitelist exC8doc exC8cfg exC8out "1"
    exC8entity exC8entry
    { key := "a", type := "unstyled", depth := 0, text := "x",
      chars := [plainChar (some "1")] }
    (plainChar (some "1"))
    rfl (by decide) (by decide) rfl rfl rfl
